import Mathlib

/-!
watermill-extension: deadline and telemetry middleware.

A shallow embedding of `kafkaDeadlineMiddleware.go` and `otel.go`.

* Messages are referenced by pointer (`*message.Message`), so the embedding keeps a heap
  of messages indexed by reference; a handler reads and writes that heap and a state of
  its own.  Messages are allocated and carry an allocated metadata map, as
  `message.NewMessage` creates them.
* Every call into the metrics or tracing API (`meter.RecordBatch`, `tr.Start`,
  `span.SetAttributes`, `span.SetStatus`, `span.RecordError`, `span.End`) and the call of
  the wrapped handler is appended, in program order, to an event trace.  Spans are
  numbered in the order the tracer hands them out.
* The goroutine started for every produced message is kept as a `Watcher` record, and its
  `go` statement is an event of the trace; what the goroutine does once a signal fires is
  the function `Watcher.run`.  The relation `Exec` gives the traces of the path of an
  invocation run together with its goroutines: the events of a goroutine come after its
  `go` statement, interleaved in any way with what follows.
* The clock is a sequence of readings: `clock i` is what the `i`-th call of `time.Now()`
  made by the middleware returns.  `time.Since(t)` is `Now().Sub(t)`, which saturates at
  the ends of the range of `time.Duration`.
-/

namespace Watermillext

/-! ## Time (package `time`) -/

/-- Instants, in nanoseconds. -/
abbrev Time := Int

/-- Model of `time.Duration`: a signed 64 bit count of nanoseconds. -/
abbrev Duration := Int

/-- The largest `time.Duration`. -/
def maxDuration : Duration := 2 ^ 63 - 1

/-- The smallest `time.Duration`. -/
def minDuration : Duration := -(2 ^ 63)

/-- Model of `Time.Sub`: the difference `t - u`, saturated to the range of a duration. -/
def timeSub (t u : Time) : Duration :=
  if t - u > maxDuration then maxDuration
  else if t - u < minDuration then minDuration
  else t - u

/-- Model of `Duration.Milliseconds`: whole milliseconds, rounded toward zero. -/
def Milliseconds (d : Duration) : Int := Int.tdiv d 1000000

/-! ## Attributes (package `attribute`) -/

/-- Value of an attribute. -/
inductive Value where
  | string (s : String)
  | int (i : Int)
deriving DecidableEq, Repr

/-- Model of `attribute.KeyValue`. -/
structure KeyValue where
  key : String
  value : Value
deriving DecidableEq, Repr

/-- Model of `attribute.String`. -/
def attrString (k v : String) : KeyValue := ⟨k, Value.string v⟩

/-- Model of `attribute.Int`. -/
def attrInt (k : String) (v : Int) : KeyValue := ⟨k, Value.int v⟩

/-! ## Contexts -/

/-- The values a message context carries: the watermill router values (handler name and
topics, the empty string when unset), the optional kafka values, the active span and the
remote span context a propagator extracted. -/
structure Context where
  handlerName : String
  subscribeTopic : String
  publishTopic : String
  partition : Option Int
  partitionOffset : Option Int
  timestamp : Option Time
  span : Option Nat
  remote : Option String
deriving DecidableEq, Repr

/-- Model of `message.HandlerNameFromCtx`. -/
def HandlerNameFromCtx (ctx : Context) : String := ctx.handlerName

/-- Model of `message.SubscribeTopicFromCtx`. -/
def SubscribeTopicFromCtx (ctx : Context) : String := ctx.subscribeTopic

/-- Model of `message.PublishTopicFromCtx`. -/
def PublishTopicFromCtx (ctx : Context) : String := ctx.publishTopic

/-- Model of `kafka.MessagePartitionFromCtx`: `(p, ok)` as an option. -/
def MessagePartitionFromCtx (ctx : Context) : Option Int := ctx.partition

/-- Model of `kafka.MessagePartitionOffsetFromCtx`: `(o, ok)` as an option. -/
def MessagePartitionOffsetFromCtx (ctx : Context) : Option Int := ctx.partitionOffset

/-- Model of `kafka.MessageTimestampFromCtx`: `(t, ok)` as an option. -/
def MessageTimestampFromCtx (ctx : Context) : Option Time := ctx.timestamp

/-- Embedding of `buildAttrs` (otel.go): the processor, subscriber and publisher
attribute lists, in the order the function returns them. -/
def buildAttrs (ctx : Context) : List KeyValue × List KeyValue × List KeyValue :=
  let handler := attrString "watermill_handler" (HandlerNameFromCtx ctx)
  let proAttrs := [handler]
  let subAttrs := [handler, attrString "kafka_topic" (SubscribeTopicFromCtx ctx)]
  let pubAttrs := [handler, attrString "kafka_topic" (PublishTopicFromCtx ctx)]
  let subAttrs :=
    match MessagePartitionFromCtx ctx with
    | some p => subAttrs ++ [attrInt "kafka_partition" p]
    | none => subAttrs
  (proAttrs, subAttrs, pubAttrs)

/-! ## The metadata carrier -/

/-- Embedding of `metadataCarrier`: the metadata map `map[string]string`, as an
association list (the first binding of a key is the one the map holds). -/
abbrev metadataCarrier := List (String × String)

/-- Embedding of `metadataCarrier.Keys`. -/
def metadataCarrier.Keys (m : metadataCarrier) : List String := m.map Prod.fst

/-- Embedding of `metadataCarrier.Get`: the stored value, or the empty string. -/
def metadataCarrier.Get (m : metadataCarrier) (key : String) : String :=
  match m.lookup key with
  | some v => v
  | none => ""

/-- Embedding of `metadataCarrier.Set`: the map assignment `m[key] = value`. -/
def metadataCarrier.Set (m : metadataCarrier) (key value : String) : metadataCarrier :=
  (key, value) :: m.filter (fun kv => kv.1 != key)

/-- Model of the `TextMapPropagator` interface.  A propagator sees a carrier only through
`Get` and `Keys`; `Inject` answers with the `Set` calls it makes, in order. -/
structure TextMapPropagator where
  Extract : Context → (String → String) → List String → Context
  Inject : Context → (String → String) → List String → List (String × String)

/-- The effect of `propagator.Inject(ctx, metadataCarrier(md))` on the map `md`. -/
def injectInto (p : TextMapPropagator) (ctx : Context) (md : metadataCarrier) :
    metadataCarrier :=
  (p.Inject ctx (metadataCarrier.Get md) (metadataCarrier.Keys md)).foldl
    (fun m kv => metadataCarrier.Set m kv.1 kv.2) md

/-! ## Messages and handlers -/

/-- Model of `message.Message`. -/
structure Message where
  UUID : String
  Metadata : metadataCarrier
  Payload : List Nat
  ctx : Context
deriving DecidableEq, Repr

/-- Model of `*message.Message`. -/
abbrev MsgRef := Nat

/-- The messages in memory. -/
abbrev Heap := MsgRef → Message

/-- Model of a Go `error` value that is not nil. -/
abbrev Error := String

/-- What a handler can read and write: the messages and a state of its own. -/
structure HState (σ : Type) where
  heap : Heap
  user : σ

/-- Model of `message.HandlerFunc`: `func(msg *Message) ([]*Message, error)`. -/
abbrev HandlerFunc (σ : Type) :=
  MsgRef → HState σ → (List MsgRef × Option Error) × HState σ

/-- Model of `msg.SetContext(ctx)`. -/
def SetContext {σ : Type} (s : HState σ) (msg : MsgRef) (ctx : Context) : HState σ :=
  { s with heap := Function.update s.heap msg { s.heap msg with ctx := ctx } }

/-- Replaces the metadata map of `msg`. -/
def setMetadata {σ : Type} (s : HState σ) (msg : MsgRef) (md : metadataCarrier) :
    HState σ :=
  { s with heap := Function.update s.heap msg { s.heap msg with Metadata := md } }

/-! ## Telemetry -/

/-- Model of `trace.SpanKind`, the two kinds in use. -/
inductive SpanKind where
  | consumer
  | producer
deriving DecidableEq, Repr

/-- Model of `codes.Code`. -/
inductive Code where
  | unset
  | error
  | ok
deriving DecidableEq, Repr

/-- The calls observed by the metrics and tracing sinks, the call of the wrapped handler,
and the `go` statement that starts the goroutine watching `span`. -/
inductive Event where
  | recordBatch (ctx : Context) (labels : List KeyValue) (instrument : String) (value : Int)
  | start (span : Nat) (parent : Context) (name : String) (kind : SpanKind)
  | setAttributes (span : Nat) (attrs : List KeyValue)
  | setStatus (span : Nat) (code : Code) (description : String)
  | recordError (span : Nat) (err : Error)
  | spanEnd (span : Nat)
  | call (msg : MsgRef)
  | go (span : Nat)
deriving DecidableEq, Repr

/-- The two completion signals of a message. -/
inductive Signal where
  | acked
  | nacked
deriving DecidableEq, Repr

/-- The goroutine started for one produced message, with the variables it captures. -/
structure Watcher where
  msg : MsgRef
  span : Nat
  ctx : Context
  publishStart : Time
  pubAttr : List KeyValue
deriving DecidableEq, Repr

/-- Embedding of the goroutine body (otel.go, lines 78 to 92).  `sig` is the signal the
`select` receives, `none` when neither channel is ever closed (the goroutine then blocks
and does nothing); `now` is the clock reading of its `time.Since`. -/
def Watcher.run (w : Watcher) (sig : Option Signal) (now : Time) : List Event :=
  match sig with
  | none => []
  | some Signal.acked =>
    [Event.spanEnd w.span,
     Event.recordBatch w.ctx w.pubAttr "watermill_kafka_publish_ms"
       (Milliseconds (timeSub now w.publishStart))]
  | some Signal.nacked =>
    [Event.setStatus w.span Code.error "nacked",
     Event.recordError w.span "message nacked",
     Event.spanEnd w.span,
     Event.recordBatch w.ctx w.pubAttr "watermill_kafka_publish_ms"
       (Milliseconds (timeSub now w.publishStart))]

/-- State of the telemetry side of one middleware: the events so far, the next span the
tracer hands out, the number of clock readings taken, and the goroutines started. -/
structure Tele where
  trace : List Event
  nextSpan : Nat
  tick : Nat
  watchers : List Watcher
deriving Repr

/-- The collaborators of the middleware: the clock and the global propagator. -/
structure Env where
  clock : Nat → Time
  propagator : TextMapPropagator

/-- Appends one event. -/
def Tele.emit (t : Tele) (e : Event) : Tele := { t with trace := t.trace ++ [e] }

/-- Model of `time.Now()`. -/
def Tele.now (env : Env) (t : Tele) : Time × Tele :=
  (env.clock t.tick, { t with tick := t.tick + 1 })

/-- Model of `tr.Start(ctx, name, trace.WithSpanKind(kind))`: a new span, child of `ctx`,
and the context that carries it. -/
def Tele.Start (t : Tele) (ctx : Context) (name : String) (kind : SpanKind) :
    Context × Nat × Tele :=
  ({ ctx with span := some t.nextSpan }, t.nextSpan,
   { t with nextSpan := t.nextSpan + 1,
            trace := t.trace ++ [Event.start t.nextSpan ctx name kind] })

/-- Model of the `go` statement. -/
def Tele.spawn (t : Tele) (w : Watcher) : Tele :=
  { t with watchers := t.watchers ++ [w], trace := t.trace ++ [Event.go w.span] }

/-- The call `h(msg)`. -/
def callHandler {σ : Type} (h : HandlerFunc σ) (msg : MsgRef) (s : HState σ) (t : Tele) :
    (List MsgRef × Option Error) × HState σ × Tele :=
  let r := h msg s
  (r.1, r.2, t.emit (Event.call msg))

/-! ## The deadline middleware -/

/-- Embedding of the handler returned by `KafkaDeadlineMiddleware(fromPublish)(h)`. -/
def KafkaDeadlineMiddleware {σ : Type} (env : Env) (fromPublish : Duration)
    (h : HandlerFunc σ) (msg : MsgRef) (s : HState σ) (t : Tele) :
    (List MsgRef × Option Error) × HState σ × Tele :=
  let ctx := (s.heap msg).ctx
  let sub := (buildAttrs ctx).2.1
  match MessageTimestampFromCtx ctx with
  | some ts =>
    let (now, t1) := t.now env
    if timeSub now ts > fromPublish then
      (([], none), s, t1.emit (Event.recordBatch ctx sub "watermill_kafka_deadline_skipped" 1))
    else
      callHandler h msg s t1
  | none => callHandler h msg s t

/-! ## The telemetry middleware -/

/-- Embedding of the body of the loop over the produced messages (otel.go, lines 72 to
95). -/
def publishLoop {σ : Type} (env : Env) (pubAttr : List KeyValue) :
    List MsgRef → HState σ → Tele → HState σ × Tele
  | [], s, t => (s, t)
  | m :: ms, s, t =>
    let (ctx, span, t1) := t.Start (s.heap m).ctx "publish messages" SpanKind.producer
    let t2 := t1.emit (Event.setAttributes span pubAttr)
    let (publishStart, t3) := t2.now env
    let t4 := t3.spawn ⟨m, span, ctx, publishStart, pubAttr⟩
    let s1 := setMetadata s m (injectInto env.propagator ctx (s.heap m).Metadata)
    publishLoop env pubAttr ms s1 t4

/-- Embedding of the handler returned by `OpenTelemetryMiddleware(h)`. -/
def OpenTelemetryMiddleware {σ : Type} (env : Env) (h : HandlerFunc σ) (msg : MsgRef)
    (s : HState σ) (t : Tele) : (List MsgRef × Option Error) × HState σ × Tele :=
  let ctx := (s.heap msg).ctx
  let (proAttr, subAttr, pubAttr) := buildAttrs ctx
  let t1 :=
    match MessagePartitionOffsetFromCtx ctx with
    | some o => t.emit (Event.recordBatch ctx subAttr "watermill_kafka_subscriber_offset" o)
    | none => t
  let t2 :=
    match MessageTimestampFromCtx ctx with
    | some ts =>
      let (now, t1a) := t1.now env
      t1a.emit (Event.recordBatch ctx subAttr "watermill_kafka_subscriber_lag_ms"
        (Milliseconds (timeSub now ts)))
    | none => t1
  let ctx1 := env.propagator.Extract ctx (metadataCarrier.Get (s.heap msg).Metadata)
    (metadataCarrier.Keys (s.heap msg).Metadata)
  let (ctx2, span, t3) := t2.Start ctx1 "process message" SpanKind.consumer
  let t4 := t3.emit (Event.setAttributes span subAttr)
  let s1 := SetContext s msg ctx2
  let (processingStart, t5) := t4.now env
  let (res, s2, t6) := callHandler h msg s1 t5
  let (now, t7) := t6.now env
  let t8 := t7.emit (Event.recordBatch ctx2 proAttr "watermill_processing_ms"
    (Milliseconds (timeSub now processingStart)))
  let (s3, t9) := publishLoop env pubAttr res.1 s2 t8
  let t10 :=
    match res.2 with
    | some err =>
      (t9.emit (Event.setStatus span Code.error "handler failed to process message")).emit
        (Event.recordError span err)
    | none => t9
  (res, s3, t10.emit (Event.spanEnd span))

/-! ## Vocabulary of the statements -/

/-- The events appended to the trace between the telemetry states `t` and `t1`. -/
def newEvents (t t1 : Tele) : List Event := t1.trace.drop t.trace.length

/-- The goroutines started between the telemetry states `t` and `t1`. -/
def newWatchers (t t1 : Tele) : List Watcher := t1.watchers.drop t.watchers.length

/-- Recognises the start of a span of kind `k`. -/
def isStart (k : SpanKind) : Event → Bool
  | Event.start _ _ _ k1 => k1 == k
  | _ => false

/-- Recognises the end of a span. -/
def isEnd : Event → Bool
  | Event.spanEnd _ => true
  | _ => false

/-- Recognises a call of the wrapped handler. -/
def isCall : Event → Bool
  | Event.call _ => true
  | _ => false

/-- Recognises a recording on the instrument `name`. -/
def isRecord (name : String) : Event → Bool
  | Event.recordBatch _ _ i _ => i == name
  | _ => false

/-- Recognises a recording on the instrument `name` made with the context of `span`. -/
def isRecordOf (name : String) (span : Nat) : Event → Bool
  | Event.recordBatch c _ i _ => i == name && c.span == some span
  | _ => false

/-- The span a tracing call is made on; `none` for recordings and handler calls. -/
def spanOf : Event → Option Nat
  | Event.start sp _ _ _ => some sp
  | Event.setAttributes sp _ => some sp
  | Event.setStatus sp _ _ => some sp
  | Event.recordError sp _ => some sp
  | Event.spanEnd sp => some sp
  | _ => none

/-- The history of span `k`: the tracing calls made on it, in order. -/
def spanEvents (k : Nat) (l : List Event) : List Event :=
  l.filter (fun e => spanOf e == some k)

/-- The recordings on the instrument `name` made with the context of span `k`. -/
def recordsOf (name : String) (k : Nat) (l : List Event) : List Event :=
  l.filter (isRecordOf name k)

/-- The attribute list an event sets, if it is a `SetAttributes`. -/
def attrsOf : Event → Option (List KeyValue)
  | Event.setAttributes _ a => some a
  | _ => none

/-- The status an event sets, if it is a `SetStatus`. -/
def statusOf : Event → Option (Code × String)
  | Event.setStatus _ c d => some (c, d)
  | _ => none

/-- The error an event records, if it is a `RecordError`. -/
def errorOf : Event → Option Error
  | Event.recordError _ e => some e
  | _ => none

/-- The attribute lists set on span `k`, in order. -/
def attrsSetOn (k : Nat) (l : List Event) : List (List KeyValue) :=
  (spanEvents k l).filterMap attrsOf

/-- The statuses set on span `k`, in order. -/
def statusSetOn (k : Nat) (l : List Event) : List (Code × String) :=
  (spanEvents k l).filterMap statusOf

/-- The errors recorded on span `k`, in order. -/
def errorsRecordedOn (k : Nat) (l : List Event) : List Error :=
  (spanEvents k l).filterMap errorOf

/-- In `l`, an occurrence of `a` comes before an occurrence of `b`. -/
def Precedes (a b : Event) (l : List Event) : Prop :=
  ∃ l1 l2 l3, l = l1 ++ a :: l2 ++ b :: l3

/-- The context the telemetry middleware installs on the inbound message before it calls
the wrapped handler: the extracted context, carrying the consumer span. -/
def tracedCtx {σ : Type} (env : Env) (msg : MsgRef) (s : HState σ) (t : Tele) : Context :=
  { env.propagator.Extract (s.heap msg).ctx (metadataCarrier.Get (s.heap msg).Metadata)
      (metadataCarrier.Keys (s.heap msg).Metadata) with span := some t.nextSpan }

/-- The events of the goroutines `ws`, where goroutine `i` receives the signal
`outcome i` and reads the clock as `done i`. -/
def asyncEvents (outcome : Nat → Option Signal) (done : Nat → Time) :
    Nat → List Watcher → List Event
  | _, [] => []
  | i, w :: ws => w.run (outcome i) (done i) ++ asyncEvents outcome done (i + 1) ws

/-- The events of one invocation followed by those of the goroutines it started, where
goroutine `i` receives the signal `outcome i` and reads the clock as `done i`. -/
def allEvents (t t1 : Tele) (outcome : Nat → Option Signal) (done : Nat → Time) :
    List Event :=
  newEvents t t1 ++ asyncEvents outcome done 0 (newWatchers t t1)

/-- The events of one invocation of the telemetry middleware on its own path. -/
def otelTrace {σ : Type} (env : Env) (h : HandlerFunc σ) (msg : MsgRef) (s : HState σ)
    (t : Tele) : List Event :=
  newEvents t (OpenTelemetryMiddleware env h msg s t).2.2

/-- The events of one invocation of the telemetry middleware followed by those of the
goroutines it started, under the signals `outcome` and clock readings `done`. -/
def otelTraceAll {σ : Type} (env : Env) (h : HandlerFunc σ) (msg : MsgRef) (s : HState σ)
    (t : Tele) (outcome : Nat → Option Signal) (done : Nat → Time) : List Event :=
  allEvents t (OpenTelemetryMiddleware env h msg s t).2.2 outcome done

/-- The number of goroutines, among the `n` of indices `j`, `j + 1`, ..., that receive a
signal. -/
def signalled (outcome : Nat → Option Signal) : Nat → Nat → Nat
  | _, 0 => 0
  | j, n + 1 => (if (outcome j).isSome then 1 else 0) + signalled outcome (j + 1) n

/-! ## Executions with goroutines -/

/-- Recognises a `go` statement. -/
def isGo : Event → Bool
  | Event.go _ => true
  | _ => false

/-- Interleavings of two sequences of events: `Interleave l1 l2 l` says that `l` is made
of the events of `l1` and of `l2`, each sequence in its own order. -/
inductive Interleave : List Event → List Event → List Event → Prop where
  | nil : Interleave [] [] []
  | left (e : Event) {l1 l2 l : List Event} :
    Interleave l1 l2 l → Interleave (e :: l1) l2 (e :: l)
  | right (e : Event) {l1 l2 l : List Event} :
    Interleave l1 l2 l → Interleave l1 (e :: l2) (e :: l)

/-- Executions of a path together with the goroutines it starts.
`Exec outcome done j main ws tr` says that `tr` is a trace of the path `main` run with
the goroutines `ws`, where the `i`-th `go` statement of `main` starts `ws[i]`, which
receives the signal `outcome (j + i)` and reads the clock as `done (j + i)`: the events of
a goroutine are interleaved, in any way, with everything that follows its `go`
statement. -/
inductive Exec (outcome : Nat → Option Signal) (done : Nat → Time) :
    Nat → List Event → List Watcher → List Event → Prop where
  | nil (j : Nat) : Exec outcome done j [] [] []
  | go (j sp : Nat) (w : Watcher) {main : List Event} {ws : List Watcher}
    {tr tr1 : List Event} :
    Exec outcome done (j + 1) main ws tr →
    Interleave (w.run (outcome j) (done j)) tr tr1 →
    Exec outcome done j (Event.go sp :: main) (w :: ws) (Event.go sp :: tr1)
  | ev (j : Nat) (e : Event) {main : List Event} {ws : List Watcher} {tr : List Event} :
    isGo e = false → Exec outcome done j main ws tr →
    Exec outcome done j (e :: main) ws (e :: tr)

/-- The traces of one invocation of the telemetry middleware run with its goroutines,
under the signals `outcome` and the clock readings `done`. -/
def OtelExec {σ : Type} (env : Env) (h : HandlerFunc σ) (msg : MsgRef) (s : HState σ)
    (t : Tele) (outcome : Nat → Option Signal) (done : Nat → Time) (tr : List Event) : Prop :=
  Exec outcome done 0 (otelTrace env h msg s t)
    (newWatchers t (OpenTelemetryMiddleware env h msg s t).2.2) tr

/-! ## Closed forms of the loop and of the whole invocation -/

/-- The events of the loop over produced messages whose contexts are `cs`, when the next
span the tracer hands out is `n`. -/
def producerEvents (pubAttr : List KeyValue) : Nat → List Context → List Event
  | _, [] => []
  | n, c :: cs =>
    Event.start n c "publish messages" SpanKind.producer ::
      Event.setAttributes n pubAttr :: Event.go n :: producerEvents pubAttr (n + 1) cs

/-- The goroutines the loop starts for the produced messages, given with their contexts,
when the next span is `n` and the next clock reading is `k`. -/
def producerWatchers (env : Env) (pubAttr : List KeyValue) :
    Nat → Nat → List (MsgRef × Context) → List Watcher
  | _, _, [] => []
  | n, k, (m, c) :: r =>
    ⟨m, n, { c with span := some n }, env.clock k, pubAttr⟩ ::
      producerWatchers env pubAttr (n + 1) (k + 1) r

/-- The offset and lag recordings made before the consumer span starts. -/
def preEvents (env : Env) (ctx : Context) (tick : Nat) : List Event :=
  (match MessagePartitionOffsetFromCtx ctx with
    | some o =>
      [Event.recordBatch ctx (buildAttrs ctx).2.1 "watermill_kafka_subscriber_offset" o]
    | none => []) ++
  (match MessageTimestampFromCtx ctx with
    | some ts =>
      [Event.recordBatch ctx (buildAttrs ctx).2.1 "watermill_kafka_subscriber_lag_ms"
        (Milliseconds (timeSub (env.clock tick) ts))]
    | none => [])

/-- The number of clock readings taken before the consumer span starts. -/
def preTicks (ctx : Context) : Nat :=
  match MessageTimestampFromCtx ctx with
  | some _ => 1
  | none => 0

/-- The marking of the consumer span after the loop. -/
def errorEvents (span : Nat) : Option Error → List Event
  | some err =>
    [Event.setStatus span Code.error "handler failed to process message",
     Event.recordError span err]
  | none => []

/-- The context the propagator extracts from the metadata of the inbound message. -/
def extractedCtx {σ : Type} (env : Env) (msg : MsgRef) (s : HState σ) : Context :=
  env.propagator.Extract (s.heap msg).ctx (metadataCarrier.Get (s.heap msg).Metadata)
    (metadataCarrier.Keys (s.heap msg).Metadata)

/-- The call of the wrapped handler the telemetry middleware makes: on the inbound message,
once its context has been replaced by the traced one. -/
def handlerRun {σ : Type} (env : Env) (h : HandlerFunc σ) (msg : MsgRef) (s : HState σ)
    (t : Tele) : (List MsgRef × Option Error) × HState σ :=
  h msg (SetContext s msg (tracedCtx env msg s t))

/-- The events of one invocation of the telemetry middleware, in program order. -/
def mainEvents {σ : Type} (env : Env) (h : HandlerFunc σ) (msg : MsgRef) (s : HState σ)
    (t : Tele) : List Event :=
  preEvents env (s.heap msg).ctx t.tick ++
  [Event.start t.nextSpan (extractedCtx env msg s) "process message" SpanKind.consumer,
   Event.setAttributes t.nextSpan (buildAttrs (s.heap msg).ctx).2.1,
   Event.call msg,
   Event.recordBatch (tracedCtx env msg s t) (buildAttrs (s.heap msg).ctx).1
     "watermill_processing_ms"
     (Milliseconds (timeSub (env.clock (t.tick + preTicks (s.heap msg).ctx + 1))
       (env.clock (t.tick + preTicks (s.heap msg).ctx))))] ++
  producerEvents (buildAttrs (s.heap msg).ctx).2.2 (t.nextSpan + 1)
    ((handlerRun env h msg s t).1.1.map fun m => ((handlerRun env h msg s t).2.heap m).ctx) ++
  errorEvents t.nextSpan (handlerRun env h msg s t).1.2 ++
  [Event.spanEnd t.nextSpan]

/-- The tracing calls a goroutine makes on its span `k` when it receives `sig`. -/
def completion (k : Nat) : Option Signal → List Event
  | none => []
  | some Signal.acked => [Event.spanEnd k]
  | some Signal.nacked =>
    [Event.setStatus k Code.error "nacked", Event.recordError k "message nacked",
     Event.spanEnd k]

/-- The recording a goroutine makes when it receives a signal. -/
def publishRecord (w : Watcher) (now : Time) : Event :=
  Event.recordBatch w.ctx w.pubAttr "watermill_kafka_publish_ms"
    (Milliseconds (timeSub now w.publishStart))

/-- The goroutine started for the produced message `m` of index `i`. -/
def watcherOf {σ : Type} (env : Env) (h : HandlerFunc σ) (msg : MsgRef) (s : HState σ)
    (t : Tele) (i : Nat) (m : MsgRef) : Watcher :=
  ⟨m, t.nextSpan + 1 + i,
   { ((handlerRun env h msg s t).2.heap m).ctx with span := some (t.nextSpan + 1 + i) },
   env.clock (t.tick + preTicks (s.heap msg).ctx + 2 + i),
   (buildAttrs (s.heap msg).ctx).2.2⟩

/-- Holds of the calls made on span `k` and of the recordings made with its context. -/
def concerns (k : Nat) : Event → Bool
  | Event.recordBatch c _ _ _ => c.span == some k
  | e => spanOf e == some k

/-- Holds when, at every `go` statement of `main`, either the goroutine it starts makes no
event that satisfies `p`, or nothing that follows does. -/
def Excl (outcome : Nat → Option Signal) (done : Nat → Time) (p : Event → Bool) :
    Nat → List Event → List Watcher → Prop
  | _, [], _ => True
  | j, Event.go _ :: main, w :: ws =>
    ((w.run (outcome j) (done j)).filter p = [] ∨
      (main.filter p = [] ∧ (asyncEvents outcome done (j + 1) ws).filter p = [])) ∧
    Excl outcome done p (j + 1) main ws
  | _, Event.go _ :: _, [] => True
  | j, _ :: main, ws => Excl outcome done p j main ws

/-! ## Examples used by the witnesses -/

/-- A propagator that extracts nothing and injects one key. -/
def exPropagator : TextMapPropagator :=
  ⟨fun ctx _ _ => ctx, fun _ _ _ => [("traceparent", "00")]⟩

/-- A clock that advances one second per reading. -/
def exEnv : Env := ⟨fun i => 1000000000 * (i + 1), exPropagator⟩

/-- A context with every value present. -/
def exCtx : Context := ⟨"h1", "in", "out", some 3, some 42, some 0, none, none⟩

/-- A context without kafka values. -/
def exCtxBare : Context := ⟨"h1", "in", "out", none, none, none, none, none⟩

/-- A heap whose message 0 carries `exCtx` and whose other messages carry `exCtxBare`. -/
def exHeap : Heap := fun r =>
  if r = 0 then ⟨"in0", [("k", "v")], [], exCtx⟩ else ⟨"out", [], [], exCtxBare⟩

/-- A handler that counts its calls, produces the messages 1 and 2 and fails. -/
def exHandler : HandlerFunc Nat := fun _ s => (([1, 2], some "boom"), { s with user := s.user + 1 })

/-- The initial handler-side state of the examples. -/
def exState : HState Nat := ⟨exHeap, 0⟩

/-- The initial telemetry state of the examples. -/
def exTele : Tele := ⟨[], 0, 0, []⟩

/-- Signals of the examples: the first produced message is rejected, the others are
acknowledged. -/
def exOutcome : Nat → Option Signal := fun i =>
  if i = 0 then some Signal.nacked else some Signal.acked

/-- Clock readings of the goroutines in the examples. -/
def exDone : Nat → Time := fun _ => 9000000000

/-- A handler that counts its calls, produces nothing and fails. -/
def exHandlerFail : HandlerFunc Nat := fun _ s => (([], some "boom"), { s with user := s.user + 1 })

/-- A clock that reads 2^63 nanoseconds, one more than the largest duration, after the
instant 0. -/
def exEnvFar : Env := ⟨fun _ => 9223372036854775808, exPropagator⟩

/-- A trace of the example invocation in which the goroutines run while the path of the
invocation is still going: the first produced message is rejected right after its `go`
statement, and the span of the second is ended before the consumer span. -/
def exSchedule : List Event :=
  [Event.recordBatch exCtx (buildAttrs exCtx).2.1 "watermill_kafka_subscriber_offset" 42,
   Event.recordBatch exCtx (buildAttrs exCtx).2.1 "watermill_kafka_subscriber_lag_ms" 1000,
   Event.start 0 exCtx "process message" SpanKind.consumer,
   Event.setAttributes 0 (buildAttrs exCtx).2.1,
   Event.call 0,
   Event.recordBatch { exCtx with span := some 0 } (buildAttrs exCtx).1
     "watermill_processing_ms" 1000,
   Event.start 1 exCtxBare "publish messages" SpanKind.producer,
   Event.setAttributes 1 (buildAttrs exCtx).2.2,
   Event.go 1,
   Event.setStatus 1 Code.error "nacked",
   Event.start 2 exCtxBare "publish messages" SpanKind.producer,
   Event.setAttributes 2 (buildAttrs exCtx).2.2,
   Event.recordError 1 "message nacked",
   Event.go 2,
   Event.spanEnd 2,
   Event.spanEnd 1,
   Event.setStatus 0 Code.error "handler failed to process message",
   Event.recordError 0 "boom",
   Event.recordBatch { exCtxBare with span := some 1 } (buildAttrs exCtx).2.2
     "watermill_kafka_publish_ms" 5000,
   Event.spanEnd 0,
   Event.recordBatch { exCtxBare with span := some 2 } (buildAttrs exCtx).2.2
     "watermill_kafka_publish_ms" 4000]

/-! ## Durations -/

/-- The largest duration, as a numeral. -/
theorem maxDuration_eq : maxDuration = (9223372036854775807 : Int) := by
  norm_num [maxDuration]

/-- The smallest duration, as a numeral. -/
theorem minDuration_eq : minDuration = (-9223372036854775808 : Int) := by
  norm_num [minDuration]

/-- For a bound `d` inside the range of a duration and below the largest one, the
saturated difference exceeds `d` exactly when the difference of the instants does. -/
theorem timeSub_gt_iff (t u : Time) (d : Duration) (hlo : minDuration ≤ d)
    (hhi : d < maxDuration) : timeSub t u > d ↔ t - u > d := by
  unfold timeSub
  rw [maxDuration_eq] at hhi ⊢
  rw [minDuration_eq] at hlo ⊢
  delta Time Duration at *
  split_ifs with h1 h2 <;> constructor <;> intro h <;> omega

/-- Below the largest duration, a difference of instants that exceeds the bound gives a
saturated difference that exceeds it too. -/
theorem timeSub_gt_of_sub_gt (t u : Time) (d : Duration) (hhi : d < maxDuration)
    (h : t - u > d) : timeSub t u > d := by
  unfold timeSub
  rw [maxDuration_eq] at hhi ⊢
  rw [minDuration_eq]
  delta Time Duration at *
  split_ifs with h1 h2 <;> omega

/-- The saturated difference never exceeds the largest duration, however far apart the
instants are. -/
theorem timeSub_le_max (t u : Time) : timeSub t u ≤ maxDuration := by
  unfold timeSub
  rw [maxDuration_eq, minDuration_eq]
  delta Time Duration at *
  split_ifs with h1 h2 <;> omega

/-! ## The attribute builder and the metadata carrier -/

/-- C9: `buildAttrs` returns processor = [watermill_handler], publisher =
[watermill_handler, kafka_topic = publish topic] and subscriber = [watermill_handler,
kafka_topic = subscribe topic] followed by kafka_partition exactly when the context
carries a partition; contexts that agree on these four values (whatever their other
values) get equal results, so the result is a function of those values alone. -/
theorem buildAttrs_lists (ctx : Context) :
    (buildAttrs ctx).1 = [attrString "watermill_handler" (HandlerNameFromCtx ctx)] ∧
    (buildAttrs ctx).2.2 =
      [attrString "watermill_handler" (HandlerNameFromCtx ctx),
       attrString "kafka_topic" (PublishTopicFromCtx ctx)] ∧
    (∀ p, MessagePartitionFromCtx ctx = some p →
      (buildAttrs ctx).2.1 =
        [attrString "watermill_handler" (HandlerNameFromCtx ctx),
         attrString "kafka_topic" (SubscribeTopicFromCtx ctx),
         attrInt "kafka_partition" p]) ∧
    (MessagePartitionFromCtx ctx = none →
      (buildAttrs ctx).2.1 =
        [attrString "watermill_handler" (HandlerNameFromCtx ctx),
         attrString "kafka_topic" (SubscribeTopicFromCtx ctx)]) ∧
    (∀ ctx1 : Context,
      HandlerNameFromCtx ctx1 = HandlerNameFromCtx ctx →
      SubscribeTopicFromCtx ctx1 = SubscribeTopicFromCtx ctx →
      PublishTopicFromCtx ctx1 = PublishTopicFromCtx ctx →
      MessagePartitionFromCtx ctx1 = MessagePartitionFromCtx ctx →
      buildAttrs ctx1 = buildAttrs ctx) := by
  refine ⟨rfl, rfl, ?_, ?_, ?_⟩
  · intro p hp
    simp [buildAttrs, hp]
  · intro hp
    simp [buildAttrs, hp]
  · intro ctx1 h1 h2 h3 h4
    simp [buildAttrs, h1, h2, h3, h4]

/-- Witness of C9: a context with partition 3, and a second context that differs from it
only in offset, timestamp and span. -/
theorem buildAttrs_lists_witness :
    (buildAttrs exCtx).2.1 =
      [attrString "watermill_handler" "h1", attrString "kafka_topic" "in",
       attrInt "kafka_partition" 3] ∧
    buildAttrs { exCtx with partitionOffset := none, timestamp := some 7, span := some 1 } =
      buildAttrs exCtx :=
  ⟨(buildAttrs_lists exCtx).2.2.1 3 rfl,
   (buildAttrs_lists exCtx).2.2.2.2 _ rfl rfl rfl rfl⟩

/-- Lookup in a map after an assignment to the same key. -/
theorem lookup_Set_self (m : metadataCarrier) (k v : String) :
    (metadataCarrier.Set m k v).lookup k = some v := by
  simp [metadataCarrier.Set, List.lookup]

/-- Filtering out another key does not change a lookup. -/
theorem lookup_filter_ne (m : metadataCarrier) (k k1 : String) (hne : k1 ≠ k) :
    (m.filter (fun kv => kv.1 != k)).lookup k1 = m.lookup k1 := by
  induction m with
  | nil => rfl
  | cons kv m ih =>
    obtain ⟨a, b⟩ := kv
    by_cases hak : a = k
    · subst hak
      have h1 : (k1 == a) = false := by simpa using hne
      simp [List.filter, List.lookup, h1, ih]
    · have h2 : (a != k) = true := by simpa using hak
      by_cases hk1 : k1 = a
      · subst hk1
        simp [List.filter, List.lookup, h2]
      · have h3 : (k1 == a) = false := by simpa using hk1
        simp [List.filter, List.lookup, h2, h3, ih]

/-- Lookup in a map after an assignment to another key. -/
theorem lookup_Set_ne (m : metadataCarrier) (k k1 v : String) (hne : k1 ≠ k) :
    (metadataCarrier.Set m k v).lookup k1 = m.lookup k1 := by
  have h1 : (k1 == k) = false := by simpa using hne
  simp [metadataCarrier.Set, List.lookup, h1, lookup_filter_ne m k k1 hne]

/-- C10: `Get` returns the stored value of a present key and the empty string for an
absent key; after `Set(k, v)`, `Get(k)` is `v` whatever the map held for `k` before, and
`Get` of any other key is what it was before. -/
theorem metadataCarrier_Get_Set (m : metadataCarrier) (k k1 v : String) (hne : k1 ≠ k) :
    (∀ x, m.lookup k = some x → metadataCarrier.Get m k = x) ∧
    (m.lookup k = none → metadataCarrier.Get m k = "") ∧
    metadataCarrier.Get (metadataCarrier.Set m k v) k = v ∧
    metadataCarrier.Get (metadataCarrier.Set m k v) k1 = metadataCarrier.Get m k1 := by
  refine ⟨?_, ?_, ?_, ?_⟩
  · intro x hx
    simp [metadataCarrier.Get, hx]
  · intro hx
    simp [metadataCarrier.Get, hx]
  · simp [metadataCarrier.Get, lookup_Set_self]
  · simp [metadataCarrier.Get, lookup_Set_ne m k k1 v hne]

/-- Witness of C10: overwriting the key "k" of the map {k: v, a: b}. -/
theorem metadataCarrier_Get_Set_witness :
    "a" ≠ "k" ∧
    metadataCarrier.Get [("k", "v"), ("a", "b")] "k" = "v" ∧
    metadataCarrier.Get (metadataCarrier.Set [("k", "v"), ("a", "b")] "k" "w") "k" = "w" ∧
    metadataCarrier.Get (metadataCarrier.Set [("k", "v"), ("a", "b")] "k" "w") "a" = "b" :=
  ⟨by decide,
   (metadataCarrier_Get_Set [("k", "v"), ("a", "b")] "k" "a" "w" (by decide)).1 "v" rfl,
   (metadataCarrier_Get_Set [("k", "v"), ("a", "b")] "k" "a" "w" (by decide)).2.2.1,
   (metadataCarrier_Get_Set [("k", "v"), ("a", "b")] "k" "a" "w" (by decide)).2.2.2.trans
     (by decide)⟩

/-! ## The deadline middleware -/

/-- When the age `time.Since(ts)`, the saturated difference, exceeds `fromPublish`, the
middleware returns the empty sequence and no error, leaves the handler-side state
untouched and calls no handler, and its only event is one recording of 1 on
`watermill_kafka_deadline_skipped` with the subscriber attributes. -/
theorem deadline_skips_saturated {σ : Type} (env : Env) (d : Duration) (h : HandlerFunc σ)
    (msg : MsgRef) (s : HState σ) (t : Tele) (ts : Time)
    (hts : MessageTimestampFromCtx (s.heap msg).ctx = some ts)
    (hold : timeSub (env.clock t.tick) ts > d) :
    (KafkaDeadlineMiddleware env d h msg s t).1 = ([], none) ∧
    (KafkaDeadlineMiddleware env d h msg s t).2.1 = s ∧
    newEvents t (KafkaDeadlineMiddleware env d h msg s t).2.2 =
      [Event.recordBatch (s.heap msg).ctx (buildAttrs (s.heap msg).ctx).2.1
        "watermill_kafka_deadline_skipped" 1] ∧
    (newEvents t (KafkaDeadlineMiddleware env d h msg s t).2.2).countP isCall = 0 ∧
    (newEvents t (KafkaDeadlineMiddleware env d h msg s t).2.2).countP
      (isRecord "watermill_kafka_deadline_skipped") = 1 := by
  have hr : KafkaDeadlineMiddleware env d h msg s t =
      (([], none), s, (t.now env).2.emit (Event.recordBatch (s.heap msg).ctx
        (buildAttrs (s.heap msg).ctx).2.1 "watermill_kafka_deadline_skipped" 1)) := by
    simp only [KafkaDeadlineMiddleware, hts, Tele.now]
    rw [if_pos hold]
  rw [hr]
  simp [newEvents, Tele.emit, Tele.now, isCall, isRecord]

/-- C1 (amended): for a maximum age `d` below the largest duration, when the context
carries a timestamp `ts` with `now - ts > d`, the middleware returns the empty sequence
and no error, leaves the handler-side state untouched and calls no handler, and its only
event is one recording of 1 on `watermill_kafka_deadline_skipped` with the subscriber
attributes. -/
theorem deadline_skips_stale {σ : Type} (env : Env) (d : Duration) (h : HandlerFunc σ)
    (msg : MsgRef) (s : HState σ) (t : Tele) (ts : Time)
    (hts : MessageTimestampFromCtx (s.heap msg).ctx = some ts)
    (hd : d < maxDuration)
    (hold : env.clock t.tick - ts > d) :
    (KafkaDeadlineMiddleware env d h msg s t).1 = ([], none) ∧
    (KafkaDeadlineMiddleware env d h msg s t).2.1 = s ∧
    newEvents t (KafkaDeadlineMiddleware env d h msg s t).2.2 =
      [Event.recordBatch (s.heap msg).ctx (buildAttrs (s.heap msg).ctx).2.1
        "watermill_kafka_deadline_skipped" 1] ∧
    (newEvents t (KafkaDeadlineMiddleware env d h msg s t).2.2).countP isCall = 0 ∧
    (newEvents t (KafkaDeadlineMiddleware env d h msg s t).2.2).countP
      (isRecord "watermill_kafka_deadline_skipped") = 1 :=
  deadline_skips_saturated env d h msg s t ts hts
    (timeSub_gt_of_sub_gt (env.clock t.tick) ts d hd hold)

/-- Witness of C1: a message stamped at instant 0, read at one second, with a maximum
age of 10ns and a handler that would fail. -/
theorem deadline_skips_stale_witness :
    MessageTimestampFromCtx (exState.heap 0).ctx = some 0 ∧
    (10 : Duration) < maxDuration ∧
    exEnv.clock exTele.tick - 0 > 10 ∧
    (KafkaDeadlineMiddleware exEnv 10 exHandler 0 exState exTele).1 = ([], none) ∧
    (KafkaDeadlineMiddleware exEnv 10 exHandler 0 exState exTele).2.1.user = 0 :=
  ⟨rfl, by decide, by decide,
   (deadline_skips_stale exEnv 10 exHandler 0 exState exTele 0 rfl (by decide)
     (by decide)).1,
   congrArg HState.user
     (deadline_skips_stale exEnv 10 exHandler 0 exState exTele 0 rfl (by decide)
       (by decide)).2.1⟩

/-- Counterexample to C1 as stated: with the largest duration as maximum age and a
message stamped at instant 0 and read 2^63 nanoseconds later, `now - ts` exceeds the
maximum age, yet `time.Since` saturates at the largest duration, nothing is skipped, and
the handler is called and its failure returned. -/
theorem deadline_forwards_at_max_duration :
    MessageTimestampFromCtx (exState.heap 0).ctx = some 0 ∧
    exEnvFar.clock exTele.tick - 0 > maxDuration ∧
    timeSub (exEnvFar.clock exTele.tick) 0 = maxDuration ∧
    (KafkaDeadlineMiddleware exEnvFar maxDuration exHandler 0 exState exTele).1 =
      ([1, 2], some "boom") ∧
    (KafkaDeadlineMiddleware exEnvFar maxDuration exHandler 0 exState exTele).1 ≠
      ([], none) ∧
    (KafkaDeadlineMiddleware exEnvFar maxDuration exHandler 0 exState exTele).2.1.user = 1 ∧
    newEvents exTele
      (KafkaDeadlineMiddleware exEnvFar maxDuration exHandler 0 exState exTele).2.2 =
      [Event.call 0] := by
  decide

/-- C2: when the context carries no timestamp, or a timestamp whose age is at most
`fromPublish` (equality included), the middleware returns exactly what `h` returns on
the message, the handler-side state is the one `h` leaves after that single call, the
only event is that call, and nothing is recorded on the skip counter. -/
theorem deadline_forwards_fresh {σ : Type} (env : Env) (d : Duration) (h : HandlerFunc σ)
    (msg : MsgRef) (s : HState σ) (t : Tele)
    (hfresh : MessageTimestampFromCtx (s.heap msg).ctx = none ∨
      ∃ ts, MessageTimestampFromCtx (s.heap msg).ctx = some ts ∧
        timeSub (env.clock t.tick) ts ≤ d) :
    (KafkaDeadlineMiddleware env d h msg s t).1 = (h msg s).1 ∧
    (KafkaDeadlineMiddleware env d h msg s t).2.1 = (h msg s).2 ∧
    newEvents t (KafkaDeadlineMiddleware env d h msg s t).2.2 = [Event.call msg] ∧
    (newEvents t (KafkaDeadlineMiddleware env d h msg s t).2.2).countP isCall = 1 ∧
    (newEvents t (KafkaDeadlineMiddleware env d h msg s t).2.2).countP
      (isRecord "watermill_kafka_deadline_skipped") = 0 := by
  rcases hfresh with hnone | ⟨ts, hts, hle⟩
  · have hr : KafkaDeadlineMiddleware env d h msg s t = callHandler h msg s t := by
      simp only [KafkaDeadlineMiddleware, hnone]
    rw [hr]
    simp [newEvents, callHandler, Tele.emit, isCall, isRecord]
  · have hr : KafkaDeadlineMiddleware env d h msg s t =
        callHandler h msg s (t.now env).2 := by
      simp only [KafkaDeadlineMiddleware, hts, Tele.now]
      rw [if_neg (not_lt.mpr hle)]
    rw [hr]
    simp [newEvents, callHandler, Tele.emit, Tele.now, isCall, isRecord]

/-- Witness of C2: a message stamped at instant 0 and read at one second, with a maximum
age of exactly one second; the handler is called once and its failure is returned. -/
theorem deadline_forwards_fresh_witness :
    (∃ ts, MessageTimestampFromCtx (exState.heap 0).ctx = some ts ∧
      timeSub (exEnv.clock exTele.tick) ts ≤ 1000000000) ∧
    (KafkaDeadlineMiddleware exEnv 1000000000 exHandler 0 exState exTele).1 =
      ([1, 2], some "boom") ∧
    (KafkaDeadlineMiddleware exEnv 1000000000 exHandler 0 exState exTele).2.1.user = 1 :=
  ⟨⟨0, rfl, by decide⟩,
   (deadline_forwards_fresh exEnv 1000000000 exHandler 0 exState exTele
     (Or.inr ⟨0, rfl, by decide⟩)).1,
   congrArg HState.user
     (deadline_forwards_fresh exEnv 1000000000 exHandler 0 exState exTele
       (Or.inr ⟨0, rfl, by decide⟩)).2.1⟩

/-! ## The telemetry middleware: closed forms of one invocation -/

/-- Replacing metadata leaves every context as it was. -/
theorem setMetadata_ctx {σ : Type} (s : HState σ) (m r : MsgRef) (md : metadataCarrier) :
    ((setMetadata s m md).heap r).ctx = (s.heap r).ctx := by
  by_cases hr : r = m
  · subst hr
    simp [setMetadata]
  · simp [setMetadata, Function.update_noteq hr]

/-- The loop appends a start and an attribute event per produced message. -/
theorem publishLoop_trace {σ : Type} (env : Env) (pa : List KeyValue) (ms : List MsgRef) :
    ∀ (s : HState σ) (t : Tele),
      (publishLoop env pa ms s t).2.trace =
        t.trace ++ producerEvents pa t.nextSpan (ms.map fun m => (s.heap m).ctx) := by
  induction ms with
  | nil => intro s t; simp [publishLoop, producerEvents]
  | cons m ms ih =>
    intro s t
    simp only [publishLoop, Tele.Start, Tele.emit, Tele.now, Tele.spawn]
    rw [ih]
    simp [producerEvents, setMetadata_ctx]

/-- The loop starts one goroutine per produced message. -/
theorem publishLoop_watchers {σ : Type} (env : Env) (pa : List KeyValue) (ms : List MsgRef) :
    ∀ (s : HState σ) (t : Tele),
      (publishLoop env pa ms s t).2.watchers =
        t.watchers ++ producerWatchers env pa t.nextSpan t.tick
          (ms.map fun m => (m, (s.heap m).ctx)) := by
  induction ms with
  | nil => intro s t; simp [publishLoop, producerWatchers]
  | cons m ms ih =>
    intro s t
    simp only [publishLoop, Tele.Start, Tele.emit, Tele.now, Tele.spawn]
    rw [ih]
    simp [producerWatchers, setMetadata_ctx]

/-- The loop leaves the state owned by the handler as it was. -/
theorem publishLoop_user {σ : Type} (env : Env) (pa : List KeyValue) (ms : List MsgRef) :
    ∀ (s : HState σ) (t : Tele), (publishLoop env pa ms s t).1.user = s.user := by
  induction ms with
  | nil => intro s t; rfl
  | cons m ms ih =>
    intro s t
    simp only [publishLoop]
    rw [ih]
    rfl

/-- The loop leaves every context as it was. -/
theorem publishLoop_ctx {σ : Type} (env : Env) (pa : List KeyValue) (ms : List MsgRef) :
    ∀ (s : HState σ) (t : Tele) (r : MsgRef),
      ((publishLoop env pa ms s t).1.heap r).ctx = (s.heap r).ctx := by
  induction ms with
  | nil => intro s t r; rfl
  | cons m ms ih =>
    intro s t r
    simp only [publishLoop]
    rw [ih, setMetadata_ctx]

/-- The middleware returns the pair of the handler. -/
theorem otel_result {σ : Type} (env : Env) (h : HandlerFunc σ) (msg : MsgRef)
    (s : HState σ) (t : Tele) :
    (OpenTelemetryMiddleware env h msg s t).1 = (handlerRun env h msg s t).1 := by
  cases ho : MessagePartitionOffsetFromCtx (s.heap msg).ctx <;>
    cases hts : MessageTimestampFromCtx (s.heap msg).ctx <;>
    simp [OpenTelemetryMiddleware, callHandler, handlerRun, tracedCtx, ho, hts, Tele.emit,
      Tele.now, Tele.Start]

/-- The state owned by the handler is the one its single call leaves. -/
theorem otel_user {σ : Type} (env : Env) (h : HandlerFunc σ) (msg : MsgRef)
    (s : HState σ) (t : Tele) :
    (OpenTelemetryMiddleware env h msg s t).2.1.user = (handlerRun env h msg s t).2.user := by
  cases ho : MessagePartitionOffsetFromCtx (s.heap msg).ctx <;>
    cases hts : MessageTimestampFromCtx (s.heap msg).ctx <;>
    simp [OpenTelemetryMiddleware, callHandler, handlerRun, tracedCtx, ho, hts, Tele.emit,
      Tele.now, Tele.Start, publishLoop_user]

/-- Closed form of the trace of one invocation. -/
theorem otel_trace {σ : Type} (env : Env) (h : HandlerFunc σ) (msg : MsgRef)
    (s : HState σ) (t : Tele) :
    (OpenTelemetryMiddleware env h msg s t).2.2.trace =
      t.trace ++ mainEvents env h msg s t := by
  cases ho : MessagePartitionOffsetFromCtx (s.heap msg).ctx <;>
    cases hts : MessageTimestampFromCtx (s.heap msg).ctx <;>
    cases he : (handlerRun env h msg s t).1.2 <;>
    simp only [handlerRun, tracedCtx] at he <;>
    simp [OpenTelemetryMiddleware, callHandler, mainEvents, preEvents, preTicks, errorEvents,
      ho, hts, he, Tele.emit, Tele.now,
      Tele.Start, publishLoop_trace, handlerRun, tracedCtx, extractedCtx]

/-- Closed form of the goroutines one invocation starts. -/
theorem otel_watchers {σ : Type} (env : Env) (h : HandlerFunc σ) (msg : MsgRef)
    (s : HState σ) (t : Tele) :
    (OpenTelemetryMiddleware env h msg s t).2.2.watchers =
      t.watchers ++ producerWatchers env (buildAttrs (s.heap msg).ctx).2.2 (t.nextSpan + 1)
        (t.tick + preTicks (s.heap msg).ctx + 2)
        ((handlerRun env h msg s t).1.1.map fun m =>
          (m, ((handlerRun env h msg s t).2.heap m).ctx)) := by
  cases ho : MessagePartitionOffsetFromCtx (s.heap msg).ctx <;>
    cases hts : MessageTimestampFromCtx (s.heap msg).ctx <;>
    cases he : (handlerRun env h msg s t).1.2 <;>
    simp only [handlerRun, tracedCtx] at he <;>
    simp [OpenTelemetryMiddleware, callHandler, preTicks,
      ho, hts, he, Tele.emit, Tele.now,
      Tele.Start, publishLoop_watchers, handlerRun, tracedCtx]

/-- The new events of a trace that grew by `l` are `l`. -/
theorem newEvents_append (t t1 : Tele) (l : List Event) (h : t1.trace = t.trace ++ l) :
    newEvents t t1 = l := by
  simp [newEvents, h]

/-- The new goroutines of a list that grew by `l` are `l`. -/
theorem newWatchers_append (t t1 : Tele) (l : List Watcher)
    (h : t1.watchers = t.watchers ++ l) : newWatchers t t1 = l := by
  simp [newWatchers, h]

/-- A goroutine makes no call that concerns a span other than its own. -/
theorem run_filter_other (p : Event → Bool) (k : Nat)
    (hp : ∀ e, p e = true → concerns k e = true) (w : Watcher)
    (hw : w.ctx.span = some w.span) (hk : w.span ≠ k) (sig : Option Signal) (now : Time) :
    (w.run sig now).filter p = [] := by
  have hne : ∀ e ∈ w.run sig now, p e = false := by
    intro e he
    have hc : concerns k e = false := by
      rcases sig with _ | sg
      · simp [Watcher.run] at he
      · cases sg <;> simp [Watcher.run] at he <;> rcases he with rfl | rfl | rfl | rfl <;>
          simp [concerns, spanOf, hw, hk]
    by_contra hpe
    have := hp e (by simpa using hpe)
    simp [hc] at this
  exact List.filter_eq_nil_iff.mpr (by simpa using hne)

/-- Goroutines of spans `n`, `n + 1`, ... make no call that concerns a span below `n`. -/
theorem async_filter_below (env : Env) (pa : List KeyValue) (outcome : Nat → Option Signal)
    (done : Nat → Time) (p : Event → Bool) (k : Nat)
    (hp : ∀ e, p e = true → concerns k e = true) (mcs : List (MsgRef × Context)) :
    ∀ (n tk j : Nat), k < n →
      (asyncEvents outcome done j (producerWatchers env pa n tk mcs)).filter p = [] := by
  induction mcs with
  | nil => intro n tk j _; simp [producerWatchers, asyncEvents]
  | cons mc mcs ih =>
    intro n tk j hk
    obtain ⟨m, c⟩ := mc
    simp only [producerWatchers, asyncEvents, List.filter_append]
    rw [ih (n + 1) (tk + 1) (j + 1) (by omega),
      run_filter_other p k hp _ rfl (by simp; omega)]
    rfl

/-- Of the goroutines of spans `n`, `n + 1`, ..., only the one of index `i` makes calls that
concern span `n + i`. -/
theorem async_filter_at (env : Env) (pa : List KeyValue) (outcome : Nat → Option Signal)
    (done : Nat → Time) (p : Event → Bool) (mcs : List (MsgRef × Context)) :
    ∀ (n tk j i : Nat) (mc : MsgRef × Context),
      (∀ e, p e = true → concerns (n + i) e = true) → mcs[i]? = some mc →
      (asyncEvents outcome done j (producerWatchers env pa n tk mcs)).filter p =
        (Watcher.run ⟨mc.1, n + i, { mc.2 with span := some (n + i) }, env.clock (tk + i), pa⟩
          (outcome (j + i)) (done (j + i))).filter p := by
  induction mcs with
  | nil => intro n tk j i mc _ h; simp at h
  | cons mc0 mcs ih =>
    intro n tk j i mc hp h
    obtain ⟨m0, c0⟩ := mc0
    simp only [producerWatchers, asyncEvents, List.filter_append]
    cases i with
    | zero =>
      simp at h
      subst h
      rw [async_filter_below env pa outcome done p n hp mcs (n + 1) (tk + 1) (j + 1) (by omega)]
      simp
    | succ i =>
      simp at h
      have hp1 : ∀ e, p e = true → concerns (n + 1 + i) e = true := by
        intro e he
        have := hp e he
        rwa [show n + (i + 1) = n + 1 + i by omega] at this
      rw [run_filter_other p (n + (i + 1)) hp _ rfl (by simp), ih (n + 1) (tk + 1) (j + 1) i mc hp1 h]
      simp [show n + 1 + i = n + (i + 1) by omega, show tk + 1 + i = tk + (i + 1) by omega,
        show j + 1 + i = j + (i + 1) by omega]

/-- The loop starting at span `n` makes no call that concerns a span below `n`. -/
theorem producerEvents_filter_below (pa : List KeyValue) (p : Event → Bool) (k : Nat)
    (hp : ∀ e, p e = true → concerns k e = true) (cs : List Context) :
    ∀ n, k < n → (producerEvents pa n cs).filter p = [] := by
  induction cs with
  | nil => intro n _; simp [producerEvents]
  | cons c cs ih =>
    intro n hk
    have h1 : p (Event.start n c "publish messages" SpanKind.producer) = false := by
      by_contra hpe
      have := hp _ (by simpa using hpe)
      simp [concerns, spanOf] at this
      omega
    have h2 : p (Event.setAttributes n pa) = false := by
      by_contra hpe
      have := hp _ (by simpa using hpe)
      simp [concerns, spanOf] at this
      omega
    have h3 : p (Event.go n) = false := by
      by_contra hpe
      have := hp _ (by simpa using hpe)
      simp [concerns, spanOf] at this
    simp [producerEvents, List.filter, h1, h2, h3, ih (n + 1) (by omega)]

/-- On the span of the produced message of index `i`, the loop makes a start and a
`SetAttributes`. -/
theorem producerEvents_spanEvents (pa : List KeyValue) (cs : List Context) :
    ∀ (n i : Nat) (c : Context), cs[i]? = some c →
      spanEvents (n + i) (producerEvents pa n cs) =
        [Event.start (n + i) c "publish messages" SpanKind.producer,
         Event.setAttributes (n + i) pa] := by
  have hs : ∀ sp c nm kd, spanOf (Event.start sp c nm kd) = some sp := fun _ _ _ _ => rfl
  have ha : ∀ sp a, spanOf (Event.setAttributes sp a) = some sp := fun _ _ => rfl
  have hg : ∀ sp, spanOf (Event.go sp) = none := fun _ => rfl
  induction cs with
  | nil => intro n i c h; simp at h
  | cons c0 cs ih =>
    intro n i c h
    cases i with
    | zero =>
      simp at h
      subst h
      have := producerEvents_filter_below pa (fun e => spanOf e == some n) n
        (by intro e he; cases e <;> simp_all [concerns, spanOf]) cs (n + 1) (by omega)
      simp [spanEvents, producerEvents, List.filter_cons, hs, ha, hg, this]
    | succ i =>
      simp at h
      have := ih (n + 1) i c h
      rw [show n + 1 + i = n + (i + 1) by omega] at this
      simp only [spanEvents] at this
      simp [spanEvents, producerEvents, List.filter_cons, hs, ha, hg, this]

/-- The events of one invocation, in closed form. -/
theorem otel_newEvents {σ : Type} (env : Env) (h : HandlerFunc σ) (msg : MsgRef)
    (s : HState σ) (t : Tele) :
    newEvents t (OpenTelemetryMiddleware env h msg s t).2.2 = mainEvents env h msg s t :=
  newEvents_append _ _ _ (otel_trace env h msg s t)

/-- The goroutines of one invocation, in closed form. -/
theorem otel_newWatchers {σ : Type} (env : Env) (h : HandlerFunc σ) (msg : MsgRef)
    (s : HState σ) (t : Tele) :
    newWatchers t (OpenTelemetryMiddleware env h msg s t).2.2 =
      producerWatchers env (buildAttrs (s.heap msg).ctx).2.2 (t.nextSpan + 1)
        (t.tick + preTicks (s.heap msg).ctx + 2)
        ((handlerRun env h msg s t).1.1.map fun m =>
          (m, ((handlerRun env h msg s t).2.heap m).ctx)) :=
  newWatchers_append _ _ _ (otel_watchers env h msg s t)

/-- A filter that rejects offset and lag recordings keeps nothing of the first events. -/
theorem preEvents_filter (env : Env) (ctx : Context) (tick : Nat) (p : Event → Bool)
    (hp : ∀ c l i v, p (Event.recordBatch c l i v) = true →
      i ≠ "watermill_kafka_subscriber_offset" ∧ i ≠ "watermill_kafka_subscriber_lag_ms") :
    (preEvents env ctx tick).filter p = [] := by
  have hf : ∀ c l i v, (i = "watermill_kafka_subscriber_offset" ∨
      i = "watermill_kafka_subscriber_lag_ms") → p (Event.recordBatch c l i v) = false := by
    intro c l i v hi
    by_contra hpe
    have := hp c l i v (by simpa using hpe)
    rcases hi with hi | hi <;> simp [hi] at this
  cases ho : MessagePartitionOffsetFromCtx ctx <;> cases hts : MessageTimestampFromCtx ctx <;>
    simp [preEvents, ho, hts, List.filter_cons, hf]

/-- The marking of span `c` is made of calls on span `c`. -/
theorem errorEvents_spanEvents (c : Nat) (err : Option Error) :
    spanEvents c (errorEvents c err) = errorEvents c err := by
  cases err <;> simp [spanEvents, errorEvents, List.filter_cons, spanOf]

/-- The marking of span `c` does not concern another span. -/
theorem errorEvents_filter_other (c k : Nat) (hk : k ≠ c) (err : Option Error)
    (p : Event → Bool) (hp : ∀ e, p e = true → concerns k e = true) :
    (errorEvents c err).filter p = [] := by
  have h1 : ∀ cd d, p (Event.setStatus c cd d) = false := by
    intro cd d
    by_contra hpe
    have := hp _ (by simpa using hpe)
    simp [concerns, spanOf] at this
    exact hk this.symm
  have h2 : ∀ e, p (Event.recordError c e) = false := by
    intro e
    by_contra hpe
    have := hp _ (by simpa using hpe)
    simp [concerns, spanOf] at this
    exact hk this.symm
  cases err <;> simp [errorEvents, List.filter_cons, h1, h2]

/-- A call made on span `k` concerns span `k`. -/
theorem spanOf_concerns (k : Nat) (e : Event) (h : (spanOf e == some k) = true) :
    concerns k e = true := by
  cases e <;> simp_all [concerns, spanOf]

/-- A recording made with the context of span `k` concerns span `k`. -/
theorem isRecordOf_concerns (name : String) (k : Nat) (e : Event)
    (h : isRecordOf name k e = true) : concerns k e = true := by
  cases e <;> simp_all [concerns, isRecordOf]

/-- The history of the consumer span on the path of the invocation. -/
theorem mainEvents_spanEvents_consumer {σ : Type} (env : Env) (h : HandlerFunc σ)
    (msg : MsgRef) (s : HState σ) (t : Tele) :
    spanEvents t.nextSpan (mainEvents env h msg s t) =
      [Event.start t.nextSpan (extractedCtx env msg s) "process message" SpanKind.consumer,
       Event.setAttributes t.nextSpan (buildAttrs (s.heap msg).ctx).2.1] ++
      errorEvents t.nextSpan (handlerRun env h msg s t).1.2 ++
      [Event.spanEnd t.nextSpan] := by
  have h1 := preEvents_filter env (s.heap msg).ctx t.tick (fun e => spanOf e == some t.nextSpan)
    (by intro c l i v hp; simp [spanOf] at hp)
  have h2 := producerEvents_filter_below (buildAttrs (s.heap msg).ctx).2.2
    (fun e => spanOf e == some t.nextSpan) t.nextSpan (spanOf_concerns _)
    ((handlerRun env h msg s t).1.1.map fun m => ((handlerRun env h msg s t).2.heap m).ctx)
    (t.nextSpan + 1) (by omega)
  have h3 := errorEvents_spanEvents t.nextSpan (handlerRun env h msg s t).1.2
  simp only [spanEvents] at h3
  simp only [spanEvents, mainEvents, List.filter_append, h1, h2, h3]
  simp [List.filter_cons, spanOf]

/-- The history of a producer span on the path of the invocation. -/
theorem mainEvents_spanEvents_producer {σ : Type} (env : Env) (h : HandlerFunc σ)
    (msg : MsgRef) (s : HState σ) (t : Tele) (i : Nat) (m : MsgRef)
    (hm : (handlerRun env h msg s t).1.1[i]? = some m) :
    spanEvents (t.nextSpan + 1 + i) (mainEvents env h msg s t) =
      [Event.start (t.nextSpan + 1 + i) ((handlerRun env h msg s t).2.heap m).ctx
         "publish messages" SpanKind.producer,
       Event.setAttributes (t.nextSpan + 1 + i) (buildAttrs (s.heap msg).ctx).2.2] := by
  have h1 := preEvents_filter env (s.heap msg).ctx t.tick
    (fun e => spanOf e == some (t.nextSpan + 1 + i))
    (by intro c l i v hp; simp [spanOf] at hp)
  have h2 := producerEvents_spanEvents (buildAttrs (s.heap msg).ctx).2.2
    ((handlerRun env h msg s t).1.1.map fun m => ((handlerRun env h msg s t).2.heap m).ctx)
    (t.nextSpan + 1) i ((handlerRun env h msg s t).2.heap m).ctx (by simp [hm])
  have h3 := errorEvents_filter_other t.nextSpan (t.nextSpan + 1 + i) (by omega)
    (handlerRun env h msg s t).1.2 (fun e => spanOf e == some (t.nextSpan + 1 + i))
    (spanOf_concerns _)
  have hne : ¬ t.nextSpan = t.nextSpan + 1 + i := by omega
  simp only [spanEvents] at h2
  simp only [spanEvents, mainEvents, List.filter_append, h1, h2, h3]
  simp [List.filter_cons, spanOf, hne]

/-- The loop records nothing itself. -/
theorem producerEvents_no_record (pa : List KeyValue) (name : String) (k : Nat)
    (cs : List Context) : ∀ n, recordsOf name k (producerEvents pa n cs) = [] := by
  induction cs with
  | nil => intro n; simp [recordsOf, producerEvents]
  | cons c cs ih =>
    intro n
    have := ih (n + 1)
    simp only [recordsOf] at this
    simp [recordsOf, producerEvents, List.filter_cons, isRecordOf, this]

/-- The path of the invocation records no publish latency. -/
theorem mainEvents_no_publish_record {σ : Type} (env : Env) (h : HandlerFunc σ)
    (msg : MsgRef) (s : HState σ) (t : Tele) (k : Nat) :
    recordsOf "watermill_kafka_publish_ms" k (mainEvents env h msg s t) = [] := by
  have h1 := preEvents_filter env (s.heap msg).ctx t.tick
    (isRecordOf "watermill_kafka_publish_ms" k)
    (by
      intro c l i v hp
      simp [isRecordOf] at hp
      rw [hp.1]
      decide)
  have h2 := producerEvents_no_record (buildAttrs (s.heap msg).ctx).2.2
    "watermill_kafka_publish_ms" k
    ((handlerRun env h msg s t).1.1.map fun m => ((handlerRun env h msg s t).2.heap m).ctx)
    (t.nextSpan + 1)
  simp only [recordsOf] at h2
  simp only [recordsOf, mainEvents, List.filter_append, h1, h2]
  cases (handlerRun env h msg s t).1.2 <;>
    simp [List.filter_cons, isRecordOf, errorEvents]

/-- The calls a goroutine makes on its span. -/
theorem run_spanEvents (w : Watcher) (sig : Option Signal) (now : Time) :
    spanEvents w.span (w.run sig now) = completion w.span sig := by
  rcases sig with _ | sg
  · rfl
  · cases sg <;> simp [spanEvents, Watcher.run, completion, List.filter_cons, spanOf]

/-- The publish latency a goroutine records. -/
theorem run_recordsOf (w : Watcher) (hw : w.ctx.span = some w.span) (sig : Option Signal)
    (now : Time) :
    recordsOf "watermill_kafka_publish_ms" w.span (w.run sig now) =
      match sig with
      | none => []
      | some _ => [publishRecord w now] := by
  rcases sig with _ | sg
  · rfl
  · cases sg <;>
      simp [recordsOf, Watcher.run, publishRecord, List.filter_cons, isRecordOf, hw]

/-- A goroutine that received a signal finishes with the end of its span followed by the
recording. -/
theorem run_eq (w : Watcher) (sg : Signal) (now : Time) :
    ∃ l, w.run (some sg) now = l ++ [Event.spanEnd w.span, publishRecord w now] := by
  cases sg
  · exact ⟨[], rfl⟩
  · exact ⟨[Event.setStatus w.span Code.error "nacked",
      Event.recordError w.span "message nacked"], rfl⟩

/-- The goroutine of index `i`. -/
theorem producerWatchers_getElem (env : Env) (pa : List KeyValue)
    (mcs : List (MsgRef × Context)) :
    ∀ (n tk i : Nat) (mc : MsgRef × Context), mcs[i]? = some mc →
      (producerWatchers env pa n tk mcs)[i]? =
        some ⟨mc.1, n + i, { mc.2 with span := some (n + i) }, env.clock (tk + i), pa⟩ := by
  induction mcs with
  | nil => intro n tk i mc h; simp at h
  | cons mc0 mcs ih =>
    intro n tk i mc h
    obtain ⟨m0, c0⟩ := mc0
    cases i with
    | zero =>
      simp at h
      subst h
      simp [producerWatchers]
    | succ i =>
      simp at h
      have := ih (n + 1) (tk + 1) i mc h
      simp [producerWatchers, this, show n + 1 + i = n + (i + 1) by omega,
        show tk + 1 + i = tk + (i + 1) by omega]

/-- One goroutine per produced message. -/
theorem producerWatchers_length (env : Env) (pa : List KeyValue)
    (mcs : List (MsgRef × Context)) :
    ∀ (n tk : Nat), (producerWatchers env pa n tk mcs).length = mcs.length := by
  induction mcs with
  | nil => intro n tk; rfl
  | cons mc0 mcs ih =>
    intro n tk
    obtain ⟨m0, c0⟩ := mc0
    simp [producerWatchers, ih]

/-- The goroutine one invocation starts for the produced message of index `i`. -/
theorem otel_watcher_at {σ : Type} (env : Env) (h : HandlerFunc σ) (msg : MsgRef)
    (s : HState σ) (t : Tele) (i : Nat) (m : MsgRef)
    (hm : (handlerRun env h msg s t).1.1[i]? = some m) :
    (newWatchers t (OpenTelemetryMiddleware env h msg s t).2.2)[i]? =
      some (watcherOf env h msg s t i m) := by
  rw [otel_newWatchers]
  have := producerWatchers_getElem env (buildAttrs (s.heap msg).ctx).2.2
    ((handlerRun env h msg s t).1.1.map fun m =>
      (m, ((handlerRun env h msg s t).2.heap m).ctx))
    (t.nextSpan + 1) (t.tick + preTicks (s.heap msg).ctx + 2) i
    (m, ((handlerRun env h msg s t).2.heap m).ctx) (by simp [hm])
  simpa [watcherOf] using this

/-- The history of the consumer span, goroutines included. -/
theorem all_spanEvents_consumer {σ : Type} (env : Env) (h : HandlerFunc σ) (msg : MsgRef)
    (s : HState σ) (t : Tele) (outcome : Nat → Option Signal) (done : Nat → Time) :
    spanEvents t.nextSpan
        (allEvents t (OpenTelemetryMiddleware env h msg s t).2.2 outcome done) =
      [Event.start t.nextSpan (extractedCtx env msg s) "process message" SpanKind.consumer,
       Event.setAttributes t.nextSpan (buildAttrs (s.heap msg).ctx).2.1] ++
      errorEvents t.nextSpan (handlerRun env h msg s t).1.2 ++
      [Event.spanEnd t.nextSpan] := by
  have h1 := mainEvents_spanEvents_consumer env h msg s t
  have h2 := async_filter_below env (buildAttrs (s.heap msg).ctx).2.2 outcome done
    (fun e => spanOf e == some t.nextSpan) t.nextSpan (spanOf_concerns _)
    ((handlerRun env h msg s t).1.1.map fun m =>
      (m, ((handlerRun env h msg s t).2.heap m).ctx))
    (t.nextSpan + 1) (t.tick + preTicks (s.heap msg).ctx + 2) 0 (by omega)
  simp only [spanEvents] at h1
  simp only [allEvents, otel_newEvents, otel_newWatchers, spanEvents, List.filter_append, h1, h2]
  simp

/-- The history of a producer span, goroutines included. -/
theorem all_spanEvents_producer {σ : Type} (env : Env) (h : HandlerFunc σ) (msg : MsgRef)
    (s : HState σ) (t : Tele) (outcome : Nat → Option Signal) (done : Nat → Time)
    (i : Nat) (m : MsgRef) (hm : (handlerRun env h msg s t).1.1[i]? = some m) :
    spanEvents (t.nextSpan + 1 + i)
        (allEvents t (OpenTelemetryMiddleware env h msg s t).2.2 outcome done) =
      [Event.start (t.nextSpan + 1 + i) ((handlerRun env h msg s t).2.heap m).ctx
         "publish messages" SpanKind.producer,
       Event.setAttributes (t.nextSpan + 1 + i) (buildAttrs (s.heap msg).ctx).2.2] ++
      completion (t.nextSpan + 1 + i) (outcome i) := by
  have h1 := mainEvents_spanEvents_producer env h msg s t i m hm
  have h2 := async_filter_at env (buildAttrs (s.heap msg).ctx).2.2 outcome done
    (fun e => spanOf e == some (t.nextSpan + 1 + i))
    ((handlerRun env h msg s t).1.1.map fun m =>
      (m, ((handlerRun env h msg s t).2.heap m).ctx))
    (t.nextSpan + 1) (t.tick + preTicks (s.heap msg).ctx + 2) 0 i
    (m, ((handlerRun env h msg s t).2.heap m).ctx) (spanOf_concerns _) (by simp [hm])
  have h3 := run_spanEvents (watcherOf env h msg s t i m) (outcome i) (done i)
  simp only [spanEvents, watcherOf] at h1 h3
  simp only [Nat.zero_add] at h2
  simp only [allEvents, otel_newEvents, otel_newWatchers, spanEvents, List.filter_append, h1, h2,
    h3]

/-- The publish latencies recorded with the context of a producer span. -/
theorem all_publish_records {σ : Type} (env : Env) (h : HandlerFunc σ) (msg : MsgRef)
    (s : HState σ) (t : Tele) (outcome : Nat → Option Signal) (done : Nat → Time)
    (i : Nat) (m : MsgRef) (hm : (handlerRun env h msg s t).1.1[i]? = some m) :
    recordsOf "watermill_kafka_publish_ms" (t.nextSpan + 1 + i)
        (allEvents t (OpenTelemetryMiddleware env h msg s t).2.2 outcome done) =
      match outcome i with
      | none => []
      | some _ => [publishRecord (watcherOf env h msg s t i m) (done i)] := by
  have h1 := mainEvents_no_publish_record env h msg s t (t.nextSpan + 1 + i)
  have h2 := async_filter_at env (buildAttrs (s.heap msg).ctx).2.2 outcome done
    (isRecordOf "watermill_kafka_publish_ms" (t.nextSpan + 1 + i))
    ((handlerRun env h msg s t).1.1.map fun m =>
      (m, ((handlerRun env h msg s t).2.heap m).ctx))
    (t.nextSpan + 1) (t.tick + preTicks (s.heap msg).ctx + 2) 0 i
    (m, ((handlerRun env h msg s t).2.heap m).ctx) (isRecordOf_concerns _ _) (by simp [hm])
  have h3 := run_recordsOf (watcherOf env h msg s t i m) rfl (outcome i) (done i)
  simp only [recordsOf, watcherOf] at h1 h3
  simp only [Nat.zero_add] at h2
  simp only [allEvents, otel_newEvents, otel_newWatchers, recordsOf, List.filter_append, h1, h2,
    h3, watcherOf, List.nil_append]

/-- Ends of span `k` are counted in its history. -/
theorem count_spanEnd (k : Nat) (l : List Event) :
    l.count (Event.spanEnd k) = (spanEvents k l).count (Event.spanEnd k) := by
  rw [spanEvents, List.count_filter]
  simp [spanOf]

/-- The first events are recordings. -/
theorem preEvents_countP (env : Env) (ctx : Context) (tick : Nat) (p : Event → Bool)
    (hp : ∀ c l i v, p (Event.recordBatch c l i v) = false) :
    (preEvents env ctx tick).countP p = 0 := by
  rw [List.countP_eq_length_filter, preEvents_filter env ctx tick p
    (by intro c l i v h; simp [hp] at h)]
  rfl

/-- The loop starts one producer span per produced message. -/
theorem producerEvents_countP_start (pa : List KeyValue) (cs : List Context) :
    ∀ n, (producerEvents pa n cs).countP (isStart SpanKind.producer) = cs.length := by
  induction cs with
  | nil => intro n; rfl
  | cons c cs ih =>
    intro n
    simp [producerEvents, List.countP_cons, isStart, ih]

/-- The loop makes only starts of producer spans, `SetAttributes` calls and `go`
statements. -/
theorem producerEvents_countP_zero (pa : List KeyValue) (p : Event → Bool)
    (hs : ∀ sp c nm, p (Event.start sp c nm SpanKind.producer) = false)
    (ha : ∀ sp a, p (Event.setAttributes sp a) = false)
    (hg : ∀ sp, p (Event.go sp) = false) (cs : List Context) :
    ∀ n, (producerEvents pa n cs).countP p = 0 := by
  induction cs with
  | nil => intro n; rfl
  | cons c cs ih =>
    intro n
    simp [producerEvents, List.countP_cons, hs, ha, hg, ih]

/-- The marking is made of `SetStatus` and `RecordError` calls only. -/
theorem errorEvents_countP_zero (c : Nat) (err : Option Error) (p : Event → Bool)
    (hs : ∀ sp cd d, p (Event.setStatus sp cd d) = false)
    (hr : ∀ sp e, p (Event.recordError sp e) = false) :
    (errorEvents c err).countP p = 0 := by
  cases err <;> simp [errorEvents, List.countP_cons, hs, hr]

/-- What no goroutine does, the goroutines together do not do. -/
theorem asyncEvents_countP_zero (outcome : Nat → Option Signal) (done : Nat → Time)
    (p : Event → Bool)
    (hp : ∀ (w : Watcher) sig now, ∀ e ∈ w.run sig now, p e = false) (ws : List Watcher) :
    ∀ j, (asyncEvents outcome done j ws).countP p = 0 := by
  induction ws with
  | nil => intro j; rfl
  | cons w ws ih =>
    intro j
    simp only [asyncEvents, List.countP_append, ih, Nat.add_zero]
    rw [List.countP_eq_zero]
    intro e he
    simp [hp w _ _ e he]

/-- A goroutine starts no span. -/
theorem run_no_start (k : SpanKind) (w : Watcher) (sig : Option Signal) (now : Time) :
    ∀ e ∈ w.run sig now, isStart k e = false := by
  intro e he
  rcases sig with _ | sg
  · simp [Watcher.run] at he
  · cases sg <;> simp [Watcher.run] at he <;> rcases he with rfl | rfl | rfl | rfl <;> rfl

/-- A goroutine does not call the handler. -/
theorem run_no_call (w : Watcher) (sig : Option Signal) (now : Time) :
    ∀ e ∈ w.run sig now, isCall e = false := by
  intro e he
  rcases sig with _ | sg
  · simp [Watcher.run] at he
  · cases sg <;> simp [Watcher.run] at he <;> rcases he with rfl | rfl | rfl | rfl <;> rfl

/-- One consumer span is started on the path of the invocation. -/
theorem mainEvents_countP_start_consumer {σ : Type} (env : Env) (h : HandlerFunc σ)
    (msg : MsgRef) (s : HState σ) (t : Tele) :
    (mainEvents env h msg s t).countP (isStart SpanKind.consumer) = 1 := by
  simp only [mainEvents, List.countP_append]
  rw [preEvents_countP _ _ _ _ (fun _ _ _ _ => rfl),
    producerEvents_countP_zero _ _ (fun _ _ _ => rfl) (fun _ _ => rfl) (fun _ => rfl),
    errorEvents_countP_zero _ _ _ (fun _ _ _ => rfl) (fun _ _ => rfl)]
  simp [List.countP_cons, isStart]

/-- As many producer spans are started as messages were produced. -/
theorem mainEvents_countP_start_producer {σ : Type} (env : Env) (h : HandlerFunc σ)
    (msg : MsgRef) (s : HState σ) (t : Tele) :
    (mainEvents env h msg s t).countP (isStart SpanKind.producer) =
      (handlerRun env h msg s t).1.1.length := by
  simp only [mainEvents, List.countP_append]
  rw [preEvents_countP _ _ _ _ (fun _ _ _ _ => rfl), producerEvents_countP_start,
    errorEvents_countP_zero _ _ _ (fun _ _ _ => rfl) (fun _ _ => rfl)]
  simp [List.countP_cons, isStart]

/-- One span is ended on the path of the invocation. -/
theorem mainEvents_countP_end {σ : Type} (env : Env) (h : HandlerFunc σ)
    (msg : MsgRef) (s : HState σ) (t : Tele) :
    (mainEvents env h msg s t).countP isEnd = 1 := by
  simp only [mainEvents, List.countP_append]
  rw [preEvents_countP _ _ _ _ (fun _ _ _ _ => rfl),
    producerEvents_countP_zero _ _ (fun _ _ _ => rfl) (fun _ _ => rfl) (fun _ => rfl),
    errorEvents_countP_zero _ _ _ (fun _ _ _ => rfl) (fun _ _ => rfl)]
  simp [List.countP_cons, isEnd]

/-- The handler is called once on the path of the invocation. -/
theorem mainEvents_countP_call {σ : Type} (env : Env) (h : HandlerFunc σ)
    (msg : MsgRef) (s : HState σ) (t : Tele) :
    (mainEvents env h msg s t).countP isCall = 1 := by
  simp only [mainEvents, List.countP_append]
  rw [preEvents_countP _ _ _ _ (fun _ _ _ _ => rfl),
    producerEvents_countP_zero _ _ (fun _ _ _ => rfl) (fun _ _ => rfl) (fun _ => rfl),
    errorEvents_countP_zero _ _ _ (fun _ _ _ => rfl) (fun _ _ => rfl)]
  simp [List.countP_cons, isCall]

/-- The only call of the handler is the call on `msg`. -/
theorem mainEvents_call_mem {σ : Type} (env : Env) (h : HandlerFunc σ)
    (msg : MsgRef) (s : HState σ) (t : Tele) :
    ∀ e ∈ mainEvents env h msg s t, isCall e = true → e = Event.call msg := by
  intro e he hc
  simp only [mainEvents, List.mem_append] at he
  rcases he with (((he | he) | he) | he) | he
  · have := preEvents_countP env (s.heap msg).ctx t.tick isCall (fun _ _ _ _ => rfl)
    rw [List.countP_eq_zero] at this
    exact absurd hc (this e he)
  · simp at he
    rcases he with rfl | rfl | rfl | rfl <;> first | rfl | simp [isCall] at hc
  · have := producerEvents_countP_zero (buildAttrs (s.heap msg).ctx).2.2 isCall
      (fun _ _ _ => rfl) (fun _ _ => rfl) (fun _ => rfl)
      ((handlerRun env h msg s t).1.1.map fun m => ((handlerRun env h msg s t).2.heap m).ctx)
      (t.nextSpan + 1)
    rw [List.countP_eq_zero] at this
    exact absurd hc (this e he)
  · have := errorEvents_countP_zero t.nextSpan (handlerRun env h msg s t).1.2 isCall
      (fun _ _ _ => rfl) (fun _ _ => rfl)
    rw [List.countP_eq_zero] at this
    exact absurd hc (this e he)
  · simp at he
    subst he
    simp [isCall] at hc

/-- The loop writes metadata only: identifiers and payloads stay as they were. -/
theorem publishLoop_fields {σ : Type} (env : Env) (pa : List KeyValue) (ms : List MsgRef) :
    ∀ (s : HState σ) (t : Tele) (r : MsgRef),
      ((publishLoop env pa ms s t).1.heap r).UUID = (s.heap r).UUID ∧
      ((publishLoop env pa ms s t).1.heap r).Payload = (s.heap r).Payload := by
  induction ms with
  | nil => intro s t r; exact ⟨rfl, rfl⟩
  | cons m ms ih =>
    intro s t r
    simp only [publishLoop]
    rw [(ih _ _ r).1, (ih _ _ r).2]
    by_cases hr : r = m
    · subst hr
      simp [setMetadata]
    · simp [setMetadata, Function.update_noteq hr]

/-- The middleware leaves identifiers, payloads and contexts as the handler left them. -/
theorem otel_heap_fields {σ : Type} (env : Env) (h : HandlerFunc σ) (msg : MsgRef)
    (s : HState σ) (t : Tele) (r : MsgRef) :
    ((OpenTelemetryMiddleware env h msg s t).2.1.heap r).UUID =
      ((handlerRun env h msg s t).2.heap r).UUID ∧
    ((OpenTelemetryMiddleware env h msg s t).2.1.heap r).Payload =
      ((handlerRun env h msg s t).2.heap r).Payload ∧
    ((OpenTelemetryMiddleware env h msg s t).2.1.heap r).ctx =
      ((handlerRun env h msg s t).2.heap r).ctx := by
  cases ho : MessagePartitionOffsetFromCtx (s.heap msg).ctx <;>
    cases hts : MessageTimestampFromCtx (s.heap msg).ctx <;>
    simp [OpenTelemetryMiddleware, callHandler, handlerRun, tracedCtx, ho, hts, Tele.emit,
      Tele.now, Tele.Start, publishLoop_fields, publishLoop_ctx]

/-- The start of the consumer span is an event of the invocation. -/
theorem mainEvents_start_mem {σ : Type} (env : Env) (h : HandlerFunc σ)
    (msg : MsgRef) (s : HState σ) (t : Tele) :
    Event.start t.nextSpan (extractedCtx env msg s) "process message" SpanKind.consumer ∈
      mainEvents env h msg s t := by
  simp [mainEvents]

/-! ## Interleavings and executions -/

theorem Interleave.sublist_left {l1 l2 l : List Event} (h : Interleave l1 l2 l) :
    l1.Sublist l := by
  induction h with
  | nil => exact List.Sublist.slnil
  | left e _ ih => exact ih.cons₂ e
  | right e _ ih => exact ih.cons e

theorem Interleave.sublist_right {l1 l2 l : List Event} (h : Interleave l1 l2 l) :
    l2.Sublist l := by
  induction h with
  | nil => exact List.Sublist.slnil
  | left e _ ih => exact ih.cons e
  | right e _ ih => exact ih.cons₂ e

theorem Interleave.countP_add {l1 l2 l : List Event} (p : Event → Bool)
    (h : Interleave l1 l2 l) : l.countP p = l1.countP p + l2.countP p := by
  induction h with
  | nil => rfl
  | left e _ ih => simp only [List.countP_cons, ih]; omega
  | right e _ ih => simp only [List.countP_cons, ih]; omega

theorem Interleave.filter_left_nil {l1 l2 l : List Event} (p : Event → Bool)
    (h : Interleave l1 l2 l) (h1 : l1.filter p = []) : l.filter p = l2.filter p := by
  induction h with
  | nil => rfl
  | left e _ ih =>
    rw [List.filter_cons] at h1 ⊢
    by_cases hp : p e = true
    · simp [hp] at h1
    · simp only [hp] at h1 ⊢
      exact ih h1
  | right e _ ih =>
    rw [List.filter_cons, List.filter_cons, ih h1]

theorem Interleave.filter_right_nil {l1 l2 l : List Event} (p : Event → Bool)
    (h : Interleave l1 l2 l) (h2 : l2.filter p = []) : l.filter p = l1.filter p := by
  induction h with
  | nil => rfl
  | left e _ ih =>
    rw [List.filter_cons, List.filter_cons, ih h2]
  | right e _ ih =>
    rw [List.filter_cons] at h2 ⊢
    by_cases hp : p e = true
    · simp [hp] at h2
    · simp only [hp] at h2 ⊢
      exact ih h2

theorem Interleave.mem_or {l1 l2 l : List Event} (h : Interleave l1 l2 l) (e : Event) :
    e ∈ l ↔ e ∈ l1 ∨ e ∈ l2 := by
  induction h with
  | nil => simp
  | left a _ ih => simp only [List.mem_cons, ih]; tauto
  | right a _ ih => simp only [List.mem_cons, ih]; tauto

theorem Interleave.nil_left (l : List Event) : Interleave [] l l := by
  induction l with
  | nil => exact Interleave.nil
  | cons e l ih => exact Interleave.right e ih

theorem Interleave.insert (a x y : List Event) : Interleave a (x ++ y) (x ++ (a ++ y)) := by
  induction x with
  | nil =>
    induction a with
    | nil => exact Interleave.nil_left y
    | cons e a ih => exact Interleave.left e ih
  | cons e x ih => exact Interleave.right e ih

theorem Exec.sublist_main {outcome : Nat → Option Signal} {done : Nat → Time} {j : Nat}
    {main : List Event} {ws : List Watcher} {tr : List Event}
    (h : Exec outcome done j main ws tr) : main.Sublist tr := by
  induction h with
  | nil j => exact List.Sublist.slnil
  | go j sp w _ hi ih => exact (ih.trans hi.sublist_right).cons₂ _
  | ev j e _ _ ih => exact ih.cons₂ e

theorem Exec.sublist_run {outcome : Nat → Option Signal} {done : Nat → Time} {j : Nat}
    {main : List Event} {ws : List Watcher} {tr : List Event}
    (h : Exec outcome done j main ws tr) :
    ∀ (i : Nat) (w : Watcher), ws[i]? = some w →
      (w.run (outcome (j + i)) (done (j + i))).Sublist tr := by
  induction h with
  | nil j => intro i w hw; simp at hw
  | go j sp w0 _ hi ih =>
    intro i w hw
    cases i with
    | zero =>
      simp at hw
      subst hw
      exact hi.sublist_left.cons _
    | succ i =>
      simp at hw
      have := ih i w hw
      rw [show j + 1 + i = j + (i + 1) by omega] at this
      exact (this.trans hi.sublist_right).cons _
  | ev j e _ _ ih =>
    intro i w hw
    exact (ih i w hw).cons e

theorem Exec.countP_split {outcome : Nat → Option Signal} {done : Nat → Time} {j : Nat}
    {main : List Event} {ws : List Watcher} {tr : List Event} (p : Event → Bool)
    (h : Exec outcome done j main ws tr) :
    tr.countP p = main.countP p + (asyncEvents outcome done j ws).countP p := by
  induction h with
  | nil j => rfl
  | go j sp w _ hi ih =>
    simp only [List.countP_cons, asyncEvents, List.countP_append, hi.countP_add p, ih]
    omega
  | ev j e _ _ ih =>
    simp only [List.countP_cons, ih]
    omega

theorem Exec.mem_main_or {outcome : Nat → Option Signal} {done : Nat → Time} {j : Nat}
    {main : List Event} {ws : List Watcher} {tr : List Event}
    (h : Exec outcome done j main ws tr) (e : Event) :
    e ∈ tr ↔ e ∈ main ∨ e ∈ asyncEvents outcome done j ws := by
  induction h with
  | nil j => simp [asyncEvents]
  | go j sp w _ hi ih =>
    simp only [List.mem_cons, asyncEvents, List.mem_append, hi.mem_or, ih]
    tauto
  | ev j a _ _ ih =>
    simp only [List.mem_cons, ih]
    tauto

theorem Exec.filter_eq {outcome : Nat → Option Signal} {done : Nat → Time} {j : Nat}
    {main : List Event} {ws : List Watcher} {tr : List Event} (p : Event → Bool)
    (h : Exec outcome done j main ws tr) (hx : Excl outcome done p j main ws) :
    tr.filter p = main.filter p ++ (asyncEvents outcome done j ws).filter p := by
  induction h with
  | nil j => rfl
  | @go j sp w main ws tr tr1 _ hi ih =>
    simp only [Excl] at hx
    obtain ⟨hor, hrest⟩ := hx
    have ih1 := ih hrest
    simp only [asyncEvents, List.filter_append, List.filter_cons]
    rcases hor with hA | ⟨hB1, hB2⟩
    · rw [hi.filter_left_nil p hA, ih1, hA]
      split <;> simp
    · have htr : tr.filter p = [] := by rw [ih1, hB1, hB2]; rfl
      rw [hi.filter_right_nil p htr, hB1, hB2]
      split <;> simp
  | @ev j e main ws tr hg _ ih =>
    have hx1 : Excl outcome done p j main ws := by
      cases e <;> first | (simpa [Excl] using hx) | (simp [isGo] at hg)
    simp only [List.filter_cons, ih hx1]
    split <;> simp

/-- With no goroutine left, the condition holds. -/
theorem excl_nil_ws (outcome : Nat → Option Signal) (done : Nat → Time) (p : Event → Bool)
    (l : List Event) : ∀ j, Excl outcome done p j l [] := by
  induction l with
  | nil => intro j; simp [Excl]
  | cons e l ih =>
    intro j
    cases e <;> simp [Excl, ih]

/-- Events other than `go` statements in front of a path do not matter. -/
theorem excl_append_nogo (outcome : Nat → Option Signal) (done : Nat → Time)
    (p : Event → Bool) (l main : List Event) (ws : List Watcher) (j : Nat)
    (hl : ∀ e ∈ l, isGo e = false) (h : Excl outcome done p j main ws) :
    Excl outcome done p j (l ++ main) ws := by
  induction l with
  | nil => exact h
  | cons e l ih =>
    have he := hl e (List.mem_cons_self e l)
    have ih1 := ih (fun a ha => hl a (List.mem_cons_of_mem e ha))
    cases e <;> first | (simpa [Excl] using ih1) | (simp [isGo] at he)

/-- In the loop, the goroutine of a span is the only one to make events that concern it,
and it does so after every such event of the path. -/
theorem excl_producer (env : Env) (pa : List KeyValue) (outcome : Nat → Option Signal)
    (done : Nat → Time) (p : Event → Bool) (k : Nat)
    (hp : ∀ e, p e = true → concerns k e = true) (rest : List Event)
    (mcs : List (MsgRef × Context)) :
    ∀ (n tk j : Nat), (k < n ∨ rest.filter p = []) →
      Excl outcome done p j (producerEvents pa n (mcs.map Prod.snd) ++ rest)
        (producerWatchers env pa n tk mcs) := by
  induction mcs with
  | nil =>
    intro n tk j _
    simp only [List.map_nil, producerEvents, producerWatchers, List.nil_append]
    exact excl_nil_ws outcome done p rest j
  | cons mc mcs ih =>
    intro n tk j hk
    obtain ⟨m, c⟩ := mc
    have ih1 := ih (n + 1) (tk + 1) (j + 1) (by rcases hk with hk | hk; exact Or.inl (by omega); exact Or.inr hk)
    simp only [List.map_cons, producerEvents, producerWatchers, List.cons_append, Excl]
    refine ⟨?_, ih1⟩
    by_cases hkn : k = n
    · right
      subst hkn
      refine ⟨?_, async_filter_below env pa outcome done p k hp mcs (k + 1) (tk + 1) (j + 1)
        (by omega)⟩
      have e1 := producerEvents_filter_below pa p k hp (mcs.map Prod.snd) (k + 1) (by omega)
      have e2 : rest.filter p = [] := by
        rcases hk with hk | hk
        · omega
        · exact hk
      simp [List.filter_append, e1, e2]
    · left
      exact run_filter_other p k hp _ rfl (fun h => hkn h.symm) _ _

/-- The first events of an invocation are no `go` statements. -/
theorem preEvents_nogo (env : Env) (ctx : Context) (tick : Nat) :
    ∀ e ∈ preEvents env ctx tick, isGo e = false := by
  have := preEvents_countP env ctx tick isGo (fun _ _ _ _ => rfl)
  rw [List.countP_eq_zero] at this
  intro e he
  simpa using this e he

/-- The closed form of an invocation satisfies the condition for every predicate that
concerns one span, provided the end of the path has no such event unless the span is the
consumer span or an earlier one. -/
theorem otel_excl {σ : Type} (env : Env) (h : HandlerFunc σ) (msg : MsgRef) (s : HState σ)
    (t : Tele) (outcome : Nat → Option Signal) (done : Nat → Time) (p : Event → Bool)
    (k : Nat) (hp : ∀ e, p e = true → concerns k e = true)
    (hk : k < t.nextSpan + 1 ∨
      (errorEvents t.nextSpan (handlerRun env h msg s t).1.2 ++
        [Event.spanEnd t.nextSpan]).filter p = []) :
    Excl outcome done p 0 (otelTrace env h msg s t)
      (newWatchers t (OpenTelemetryMiddleware env h msg s t).2.2) := by
  rw [otelTrace, otel_newEvents, otel_newWatchers]
  have h1 := excl_producer env (buildAttrs (s.heap msg).ctx).2.2 outcome done p k hp
    (errorEvents t.nextSpan (handlerRun env h msg s t).1.2 ++ [Event.spanEnd t.nextSpan])
    ((handlerRun env h msg s t).1.1.map fun m =>
      (m, ((handlerRun env h msg s t).2.heap m).ctx))
    (t.nextSpan + 1) (t.tick + preTicks (s.heap msg).ctx + 2) 0 hk
  simp only [List.map_map] at h1
  have h2 := excl_append_nogo outcome done p
    (preEvents env (s.heap msg).ctx t.tick ++
      [Event.start t.nextSpan (extractedCtx env msg s) "process message" SpanKind.consumer,
       Event.setAttributes t.nextSpan (buildAttrs (s.heap msg).ctx).2.1,
       Event.call msg,
       Event.recordBatch (tracedCtx env msg s t) (buildAttrs (s.heap msg).ctx).1
         "watermill_processing_ms"
         (Milliseconds (timeSub (env.clock (t.tick + preTicks (s.heap msg).ctx + 1))
           (env.clock (t.tick + preTicks (s.heap msg).ctx))))]) _ _ 0
    (by
      intro e he
      rcases List.mem_append.mp he with he | he
      · exact preEvents_nogo env _ _ e he
      · simp at he
        rcases he with rfl | rfl | rfl | rfl <;> rfl) h1
  simpa [mainEvents, Function.comp_def] using h2

/-- Running the goroutines one after the other once the path is over is an execution. -/
theorem exec_seq (outcome : Nat → Option Signal) (done : Nat → Time) (main : List Event) :
    ∀ (j : Nat) (ws : List Watcher), main.countP isGo = ws.length →
      Exec outcome done j main ws (main ++ asyncEvents outcome done j ws) := by
  induction main with
  | nil =>
    intro j ws hlen
    have : ws = [] := List.length_eq_zero.mp (by simpa using hlen.symm)
    subst this
    exact Exec.nil j
  | cons e main ih =>
    intro j ws hlen
    by_cases hg : isGo e = true
    · obtain ⟨sp, rfl⟩ : ∃ sp, e = Event.go sp := by
        cases e <;> first | exact ⟨_, rfl⟩ | (simp [isGo] at hg)
      cases ws with
      | nil => simp [List.countP_cons, isGo] at hlen
      | cons w ws =>
        have hlen1 : main.countP isGo = ws.length := by
          simp [List.countP_cons, isGo] at hlen
          exact hlen
        have := Exec.go j sp w (ih (j + 1) ws hlen1)
          (Interleave.insert (w.run (outcome j) (done j)) main
            (asyncEvents outcome done (j + 1) ws))
        simpa [asyncEvents] using this
    · have hg1 : isGo e = false := by simpa using hg
      have hlen1 : main.countP isGo = ws.length := by
        simpa [List.countP_cons, hg1] using hlen
      exact Exec.ev j e hg1 (ih j ws hlen1)

/-- The loop makes one `go` statement per produced message. -/
theorem producerEvents_countP_go (pa : List KeyValue) (cs : List Context) :
    ∀ n, (producerEvents pa n cs).countP isGo = cs.length := by
  induction cs with
  | nil => intro n; rfl
  | cons c cs ih =>
    intro n
    simp [producerEvents, List.countP_cons, isGo, ih]

/-- The path of an invocation makes one `go` statement per produced message. -/
theorem mainEvents_countP_go {σ : Type} (env : Env) (h : HandlerFunc σ)
    (msg : MsgRef) (s : HState σ) (t : Tele) :
    (mainEvents env h msg s t).countP isGo = (handlerRun env h msg s t).1.1.length := by
  simp only [mainEvents, List.countP_append]
  rw [preEvents_countP _ _ _ _ (fun _ _ _ _ => rfl), producerEvents_countP_go,
    errorEvents_countP_zero _ _ _ (fun _ _ _ => rfl) (fun _ _ => rfl)]
  simp [List.countP_cons, isGo]

/-- The trace of the invocation followed by the events of its goroutines is one of its
executions. -/
theorem otel_exec_seq {σ : Type} (env : Env) (h : HandlerFunc σ) (msg : MsgRef)
    (s : HState σ) (t : Tele) (outcome : Nat → Option Signal) (done : Nat → Time) :
    OtelExec env h msg s t outcome done (otelTraceAll env h msg s t outcome done) := by
  apply exec_seq
  rw [otelTrace, otel_newEvents, otel_newWatchers, mainEvents_countP_go,
    producerWatchers_length]
  simp

/-- In every execution, the events that concern one span come in the same order as in the
trace of the invocation followed by the events of its goroutines. -/
theorem otel_exec_filter {σ : Type} (env : Env) (h : HandlerFunc σ) (msg : MsgRef)
    (s : HState σ) (t : Tele) (outcome : Nat → Option Signal) (done : Nat → Time)
    (tr : List Event) (hex : OtelExec env h msg s t outcome done tr) (p : Event → Bool)
    (k : Nat) (hp : ∀ e, p e = true → concerns k e = true)
    (hk : k < t.nextSpan + 1 ∨
      (errorEvents t.nextSpan (handlerRun env h msg s t).1.2 ++
        [Event.spanEnd t.nextSpan]).filter p = []) :
    tr.filter p = (otelTraceAll env h msg s t outcome done).filter p := by
  rw [Exec.filter_eq p hex (otel_excl env h msg s t outcome done p k hp hk), otelTraceAll,
    allEvents, List.filter_append]
  rfl

/-- The example schedule is an execution of the example invocation. -/
theorem exSchedule_exec :
    OtelExec exEnv exHandler 0 exState exTele exOutcome exDone exSchedule := by
  have hm : otelTrace exEnv exHandler 0 exState exTele =
      [Event.recordBatch exCtx (buildAttrs exCtx).2.1 "watermill_kafka_subscriber_offset" 42,
       Event.recordBatch exCtx (buildAttrs exCtx).2.1 "watermill_kafka_subscriber_lag_ms"
         1000,
       Event.start 0 exCtx "process message" SpanKind.consumer,
       Event.setAttributes 0 (buildAttrs exCtx).2.1,
       Event.call 0,
       Event.recordBatch { exCtx with span := some 0 } (buildAttrs exCtx).1
         "watermill_processing_ms" 1000,
       Event.start 1 exCtxBare "publish messages" SpanKind.producer,
       Event.setAttributes 1 (buildAttrs exCtx).2.2,
       Event.go 1,
       Event.start 2 exCtxBare "publish messages" SpanKind.producer,
       Event.setAttributes 2 (buildAttrs exCtx).2.2,
       Event.go 2,
       Event.setStatus 0 Code.error "handler failed to process message",
       Event.recordError 0 "boom",
       Event.spanEnd 0] := by decide
  have hw : newWatchers exTele (OpenTelemetryMiddleware exEnv exHandler 0 exState exTele).2.2 =
      [⟨1, 1, { exCtxBare with span := some 1 }, 4000000000, (buildAttrs exCtx).2.2⟩,
       ⟨2, 2, { exCtxBare with span := some 2 }, 5000000000, (buildAttrs exCtx).2.2⟩] := by
    decide
  unfold OtelExec
  rw [hm, hw]
  unfold exSchedule
  iterate 8 refine Exec.ev _ _ (by rfl) ?_
  apply Exec.go
  rotate_left
  · apply Interleave.left
    apply Interleave.right
    apply Interleave.right
    apply Interleave.left
    apply Interleave.right
    apply Interleave.right
    apply Interleave.left
    apply Interleave.right
    apply Interleave.right
    apply Interleave.left
    apply Interleave.right
    apply Interleave.right
    exact Interleave.nil
  · iterate 2 refine Exec.ev _ _ (by rfl) ?_
    apply Exec.go
    rotate_left
    · apply Interleave.left
      apply Interleave.right
      apply Interleave.right
      apply Interleave.right
      apply Interleave.left
      exact Interleave.nil
    · iterate 3 refine Exec.ev _ _ (by rfl) ?_
      exact Exec.nil _

/-! ## The telemetry middleware in every execution -/

/-- Two events in order form a sublist. -/
theorem pair_sublist_of_precedes (a b : Event) (l : List Event) (h : Precedes a b l) :
    [a, b].Sublist l := by
  obtain ⟨l1, l2, l3, rfl⟩ := h
  have h1 : [b].Sublist (l2 ++ b :: l3) := List.singleton_sublist.mpr (by simp)
  have h2 : [a, b].Sublist (a :: (l2 ++ b :: l3)) := h1.cons₂ a
  have h3 : [a, b].Sublist (l1 ++ a :: (l2 ++ b :: l3)) :=
    List.sublist_append_of_sublist_right h2
  simp only [List.append_assoc, List.cons_append]
  exact h3

/-- A sublist of two events gives their order. -/
theorem precedes_of_pair_sublist (a b : Event) :
    ∀ l : List Event, [a, b].Sublist l → Precedes a b l
  | [], h => by cases h
  | x :: l, h => by
    cases h with
    | cons _ h1 =>
      obtain ⟨l1, l2, l3, rfl⟩ := precedes_of_pair_sublist a b l h1
      exact ⟨x :: l1, l2, l3, by simp⟩
    | cons₂ _ h1 =>
      have hb : b ∈ l := List.singleton_sublist.mp h1
      obtain ⟨l2, l3, rfl⟩ := List.append_of_mem hb
      exact ⟨[], l2, l3, by simp⟩

/-- Order is kept in every list that has the given one as a sublist. -/
theorem precedes_of_sublist (a b : Event) (l l0 : List Event) (h : Precedes a b l)
    (hs : l.Sublist l0) : Precedes a b l0 :=
  precedes_of_pair_sublist a b l0 ((pair_sublist_of_precedes a b l h).trans hs)

/-- In every execution, the history of the consumer span. -/
theorem exec_spanEvents_consumer {σ : Type} (env : Env) (h : HandlerFunc σ) (msg : MsgRef)
    (s : HState σ) (t : Tele) (outcome : Nat → Option Signal) (done : Nat → Time)
    (tr : List Event) (hex : OtelExec env h msg s t outcome done tr) :
    spanEvents t.nextSpan tr =
      [Event.start t.nextSpan (extractedCtx env msg s) "process message" SpanKind.consumer,
       Event.setAttributes t.nextSpan (buildAttrs (s.heap msg).ctx).2.1] ++
      errorEvents t.nextSpan (handlerRun env h msg s t).1.2 ++
      [Event.spanEnd t.nextSpan] := by
  have h1 := otel_exec_filter env h msg s t outcome done tr hex
    (fun e => spanOf e == some t.nextSpan) t.nextSpan (spanOf_concerns _) (Or.inl (by omega))
  have h2 := all_spanEvents_consumer env h msg s t outcome done
  simp only [spanEvents, otelTraceAll] at h1 h2 ⊢
  rw [h1, h2]

/-- The end of the path of an invocation does not concern a producer span. -/
theorem tail_filter_producer {σ : Type} (env : Env) (h : HandlerFunc σ) (msg : MsgRef)
    (s : HState σ) (t : Tele) (i : Nat) (p : Event → Bool)
    (hp : ∀ e, p e = true → concerns (t.nextSpan + 1 + i) e = true) :
    (errorEvents t.nextSpan (handlerRun env h msg s t).1.2 ++
      [Event.spanEnd t.nextSpan]).filter p = [] := by
  have h1 := errorEvents_filter_other t.nextSpan (t.nextSpan + 1 + i) (by omega)
    (handlerRun env h msg s t).1.2 p hp
  have h2 : p (Event.spanEnd t.nextSpan) = false := by
    by_contra hpe
    have := hp _ (by simpa using hpe)
    simp [concerns, spanOf] at this
    omega
  simp [List.filter_append, h1, List.filter_cons, h2]

/-- In every execution, the history of a producer span. -/
theorem exec_spanEvents_producer {σ : Type} (env : Env) (h : HandlerFunc σ) (msg : MsgRef)
    (s : HState σ) (t : Tele) (outcome : Nat → Option Signal) (done : Nat → Time)
    (tr : List Event) (hex : OtelExec env h msg s t outcome done tr)
    (i : Nat) (m : MsgRef) (hm : (handlerRun env h msg s t).1.1[i]? = some m) :
    spanEvents (t.nextSpan + 1 + i) tr =
      [Event.start (t.nextSpan + 1 + i) ((handlerRun env h msg s t).2.heap m).ctx
         "publish messages" SpanKind.producer,
       Event.setAttributes (t.nextSpan + 1 + i) (buildAttrs (s.heap msg).ctx).2.2] ++
      completion (t.nextSpan + 1 + i) (outcome i) := by
  have h1 := otel_exec_filter env h msg s t outcome done tr hex
    (fun e => spanOf e == some (t.nextSpan + 1 + i)) (t.nextSpan + 1 + i) (spanOf_concerns _)
    (Or.inr (tail_filter_producer env h msg s t i _ (spanOf_concerns _)))
  have h2 := all_spanEvents_producer env h msg s t outcome done i m hm
  simp only [spanEvents, otelTraceAll] at h1 h2 ⊢
  rw [h1, h2]

/-- In every execution, the publish latencies recorded with the context of a producer
span. -/
theorem exec_publish_records {σ : Type} (env : Env) (h : HandlerFunc σ) (msg : MsgRef)
    (s : HState σ) (t : Tele) (outcome : Nat → Option Signal) (done : Nat → Time)
    (tr : List Event) (hex : OtelExec env h msg s t outcome done tr)
    (i : Nat) (m : MsgRef) (hm : (handlerRun env h msg s t).1.1[i]? = some m) :
    recordsOf "watermill_kafka_publish_ms" (t.nextSpan + 1 + i) tr =
      match outcome i with
      | none => []
      | some _ => [publishRecord (watcherOf env h msg s t i m) (done i)] := by
  have h1 := otel_exec_filter env h msg s t outcome done tr hex
    (isRecordOf "watermill_kafka_publish_ms" (t.nextSpan + 1 + i)) (t.nextSpan + 1 + i)
    (isRecordOf_concerns _ _)
    (Or.inr (tail_filter_producer env h msg s t i _ (isRecordOf_concerns _ _)))
  have h2 := all_publish_records env h msg s t outcome done i m hm
  simp only [recordsOf, otelTraceAll] at h1 h2 ⊢
  rw [h1, h2]

/-- In every execution, the end of a producer span comes before the recording of its
publish latency. -/
theorem exec_end_precedes_record {σ : Type} (env : Env) (h : HandlerFunc σ) (msg : MsgRef)
    (s : HState σ) (t : Tele) (outcome : Nat → Option Signal) (done : Nat → Time)
    (tr : List Event) (hex : OtelExec env h msg s t outcome done tr)
    (i : Nat) (m : MsgRef) (hm : (handlerRun env h msg s t).1.1[i]? = some m)
    (sg : Signal) (hsg : outcome i = some sg) :
    Precedes (Event.spanEnd (t.nextSpan + 1 + i))
      (publishRecord (watcherOf env h msg s t i m) (done i)) tr := by
  have hsub := Exec.sublist_run hex i (watcherOf env h msg s t i m)
    (otel_watcher_at env h msg s t i m hm)
  obtain ⟨l, hl⟩ := run_eq (watcherOf env h msg s t i m) sg (done i)
  simp only [Nat.zero_add, hsg, hl] at hsub
  exact precedes_of_sublist _ _ _ _ ⟨l, [], [], by simp [watcherOf]⟩ hsub

/-- In every execution, the calls of the handler, the starts and the ends of spans of a
kind are those of the path of the invocation: goroutines start no span and call no
handler. -/
theorem exec_countP_main {σ : Type} (env : Env) (h : HandlerFunc σ) (msg : MsgRef)
    (s : HState σ) (t : Tele) (outcome : Nat → Option Signal) (done : Nat → Time)
    (tr : List Event) (hex : OtelExec env h msg s t outcome done tr) (p : Event → Bool)
    (hp : ∀ (w : Watcher) sig now, ∀ e ∈ w.run sig now, p e = false) :
    tr.countP p = (otelTrace env h msg s t).countP p := by
  rw [Exec.countP_split p hex, asyncEvents_countP_zero outcome done p hp]
  rfl

/-- A goroutine records one publish latency when it receives a signal, none otherwise. -/
theorem run_countP_publish (w : Watcher) (sig : Option Signal) (now : Time) :
    (w.run sig now).countP (isRecord "watermill_kafka_publish_ms") =
      if sig.isSome then 1 else 0 := by
  rcases sig with _ | sg
  · rfl
  · cases sg <;> simp [Watcher.run, List.countP_cons, isRecord]

/-- A publish latency among the events of a goroutine is the recording it makes on a
signal. -/
theorem run_publish_mem (w : Watcher) (sig : Option Signal) (now : Time) (e : Event)
    (he : e ∈ w.run sig now) (hr : isRecord "watermill_kafka_publish_ms" e = true) :
    ∃ sg, sig = some sg ∧ e = publishRecord w now := by
  rcases sig with _ | sg
  · simp [Watcher.run] at he
  · refine ⟨sg, rfl, ?_⟩
    cases sg <;> simp [Watcher.run] at he <;> rcases he with rfl | rfl | rfl | rfl <;>
      first | rfl | (simp [isRecord] at hr)

/-- The goroutines together record as many publish latencies as they receive signals. -/
theorem asyncEvents_countP_publish (outcome : Nat → Option Signal) (done : Nat → Time)
    (ws : List Watcher) :
    ∀ j, (asyncEvents outcome done j ws).countP (isRecord "watermill_kafka_publish_ms") =
      signalled outcome j ws.length := by
  induction ws with
  | nil => intro j; rfl
  | cons w ws ih =>
    intro j
    simp only [asyncEvents, List.countP_append, run_countP_publish, ih, List.length_cons,
      signalled]

/-- An event of the goroutines is an event of one of them. -/
theorem asyncEvents_mem (outcome : Nat → Option Signal) (done : Nat → Time)
    (ws : List Watcher) (e : Event) :
    ∀ j, e ∈ asyncEvents outcome done j ws →
      ∃ (i : Nat) (w : Watcher),
        ws[i]? = some w ∧ e ∈ w.run (outcome (j + i)) (done (j + i)) := by
  induction ws with
  | nil => intro j he; simp [asyncEvents] at he
  | cons w0 ws ih =>
    intro j he
    simp only [asyncEvents, List.mem_append] at he
    rcases he with he | he
    · exact ⟨0, w0, by simp, by simpa using he⟩
    · obtain ⟨i, w, hw, hmem⟩ := ih (j + 1) he
      refine ⟨i + 1, w, by simpa using hw, ?_⟩
      rwa [show j + (i + 1) = j + 1 + i by omega]

/-- The path of an invocation records no publish latency, whatever the context. -/
theorem mainEvents_countP_publish {σ : Type} (env : Env) (h : HandlerFunc σ)
    (msg : MsgRef) (s : HState σ) (t : Tele) :
    (mainEvents env h msg s t).countP (isRecord "watermill_kafka_publish_ms") = 0 := by
  have h1 : (preEvents env (s.heap msg).ctx t.tick).countP
      (isRecord "watermill_kafka_publish_ms") = 0 := by
    rw [List.countP_eq_length_filter, preEvents_filter env (s.heap msg).ctx t.tick _
      (by
        intro c l i v hp
        simp [isRecord] at hp
        rw [hp]
        decide)]
    rfl
  simp only [mainEvents, List.countP_append]
  rw [h1, producerEvents_countP_zero _ _ (fun _ _ _ => rfl) (fun _ _ => rfl) (fun _ => rfl),
    errorEvents_countP_zero _ _ _ (fun _ _ _ => rfl) (fun _ _ => rfl)]
  simp [List.countP_cons, isRecord]

/-- In every execution, the publish latencies are as many as the signals received, and
each is the recording of a goroutine that received a signal. -/
theorem exec_publish_bound {σ : Type} (env : Env) (h : HandlerFunc σ) (msg : MsgRef)
    (s : HState σ) (t : Tele) (outcome : Nat → Option Signal) (done : Nat → Time)
    (tr : List Event) (hex : OtelExec env h msg s t outcome done tr) :
    tr.countP (isRecord "watermill_kafka_publish_ms") =
      signalled outcome 0 (handlerRun env h msg s t).1.1.length ∧
    ∀ e ∈ tr, isRecord "watermill_kafka_publish_ms" e = true →
      ∃ i m sg, (handlerRun env h msg s t).1.1[i]? = some m ∧ outcome i = some sg ∧
        e = publishRecord (watcherOf env h msg s t i m) (done i) := by
  have hlen : (newWatchers t (OpenTelemetryMiddleware env h msg s t).2.2).length =
      (handlerRun env h msg s t).1.1.length := by
    rw [otel_newWatchers, producerWatchers_length]
    simp
  have hmain : (otelTrace env h msg s t).countP (isRecord "watermill_kafka_publish_ms") = 0 := by
    rw [otelTrace, otel_newEvents]
    exact mainEvents_countP_publish env h msg s t
  refine ⟨?_, ?_⟩
  · rw [Exec.countP_split _ hex, hmain, asyncEvents_countP_publish, hlen, Nat.zero_add]
  · intro e he hr
    rcases (Exec.mem_main_or hex e).mp he with hm | hm
    · rw [List.countP_eq_zero] at hmain
      exact absurd hr (hmain e hm)
    · obtain ⟨i, w, hw, hmem⟩ := asyncEvents_mem outcome done _ e 0 hm
      have hi : i < (handlerRun env h msg s t).1.1.length := by
        rw [← hlen]
        exact (List.getElem?_eq_some_iff.mp hw).1
      obtain ⟨m, hmi⟩ : ∃ m, (handlerRun env h msg s t).1.1[i]? = some m :=
        ⟨_, List.getElem?_eq_getElem hi⟩
      have hw2 := otel_watcher_at env h msg s t i m hmi
      have hwe : w = watcherOf env h msg s t i m := by
        rw [hw] at hw2
        exact Option.some.inj hw2
      subst hwe
      simp only [Nat.zero_add] at hmem
      obtain ⟨sg, hsg, heq⟩ := run_publish_mem _ _ _ e hmem hr
      exact ⟨i, m, sg, hmi, hsg, heq⟩

/-! ## The telemetry middleware: the statements -/

/-- C3: the telemetry middleware returns exactly the pair (produced messages, error) the
wrapped handler returns on the inbound message (whose context it has replaced by the
traced one), whether the error is nil or not; the handler-owned state is the one left by
that single call; the trace holds exactly one call event, the call on `msg`, and no
execution of the goroutines adds one; of the messages only the metadata is written. -/
theorem otel_returns_handler_result {σ : Type} (env : Env) (h : HandlerFunc σ)
    (msg : MsgRef) (s : HState σ) (t : Tele) :
    (OpenTelemetryMiddleware env h msg s t).1 =
      (h msg (SetContext s msg (tracedCtx env msg s t))).1 ∧
    (OpenTelemetryMiddleware env h msg s t).2.1.user =
      (h msg (SetContext s msg (tracedCtx env msg s t))).2.user ∧
    (otelTrace env h msg s t).countP isCall = 1 ∧
    (otelTrace env h msg s t).count (Event.call msg) = 1 ∧
    (∀ outcome done tr, OtelExec env h msg s t outcome done tr → tr.countP isCall = 1) ∧
    (∀ r,
      ((OpenTelemetryMiddleware env h msg s t).2.1.heap r).UUID =
        ((h msg (SetContext s msg (tracedCtx env msg s t))).2.heap r).UUID ∧
      ((OpenTelemetryMiddleware env h msg s t).2.1.heap r).Payload =
        ((h msg (SetContext s msg (tracedCtx env msg s t))).2.heap r).Payload ∧
      ((OpenTelemetryMiddleware env h msg s t).2.1.heap r).ctx =
        ((h msg (SetContext s msg (tracedCtx env msg s t))).2.heap r).ctx) := by
  have hcall : (otelTrace env h msg s t).countP isCall = 1 := by
    rw [otelTrace, otel_newEvents]
    exact mainEvents_countP_call env h msg s t
  refine ⟨otel_result env h msg s t, otel_user env h msg s t, hcall, ?_, ?_, ?_⟩
  · rw [otelTrace, otel_newEvents]
    have h1 := mainEvents_countP_call env h msg s t
    have h2 : (mainEvents env h msg s t).countP isCall =
        (mainEvents env h msg s t).countP (fun e => e == Event.call msg) := by
      apply List.countP_congr
      intro e he
      constructor
      · intro hc
        simp [mainEvents_call_mem env h msg s t e he hc]
      · intro hc
        have : e = Event.call msg := by simpa using hc
        subst this
        rfl
    rw [List.count_eq_countP, ← h2, h1]
  · intro outcome done tr hex
    rw [exec_countP_main env h msg s t outcome done tr hex isCall
      (fun w sig now => run_no_call w sig now), hcall]
  · intro r
    exact otel_heap_fields env h msg s t r

/-- C4 (amended): the consumer span, started as a child of the extracted context, is
tagged exactly once, with the subscriber attribute list (the second result of
`buildAttrs`: handler name, subscribe topic and, when present, partition). -/
theorem consumer_span_attributes {σ : Type} (env : Env) (h : HandlerFunc σ)
    (msg : MsgRef) (s : HState σ) (t : Tele) :
    Event.start t.nextSpan (extractedCtx env msg s) "process message" SpanKind.consumer ∈
      otelTrace env h msg s t ∧
    Event.setAttributes t.nextSpan (buildAttrs (s.heap msg).ctx).2.1 ∈
      otelTrace env h msg s t ∧
    attrsSetOn t.nextSpan (otelTrace env h msg s t) = [(buildAttrs (s.heap msg).ctx).2.1] ∧
    (∀ outcome done tr, OtelExec env h msg s t outcome done tr →
      attrsSetOn t.nextSpan tr = [(buildAttrs (s.heap msg).ctx).2.1]) := by
  refine ⟨?_, ?_, ?_, ?_⟩
  · rw [otelTrace, otel_newEvents]
    exact mainEvents_start_mem env h msg s t
  · rw [otelTrace, otel_newEvents]
    simp [mainEvents]
  · rw [attrsSetOn, otelTrace, otel_newEvents, mainEvents_spanEvents_consumer]
    cases (handlerRun env h msg s t).1.2 <;> simp [errorEvents, attrsOf]
  · intro outcome done tr hex
    rw [attrsSetOn, exec_spanEvents_consumer env h msg s t outcome done tr hex]
    cases (handlerRun env h msg s t).1.2 <;> simp [errorEvents, attrsOf]

/-- Counterexample to C4 as stated: for a message with handler "h1", subscribe topic "in"
and partition 3, the attributes set on the consumer span are the three subscriber
attributes, not the processor list (handler name only). -/
theorem consumer_span_attributes_not_processor :
    attrsSetOn exTele.nextSpan (otelTrace exEnv exHandler 0 exState exTele) =
      [[attrString "watermill_handler" "h1", attrString "kafka_topic" "in",
        attrInt "kafka_partition" 3]] ∧
    (buildAttrs (exState.heap 0).ctx).1 = [attrString "watermill_handler" "h1"] ∧
    attrsSetOn exTele.nextSpan (otelTrace exEnv exHandler 0 exState exTele) ≠
      [(buildAttrs (exState.heap 0).ctx).1] ∧
    Event.setAttributes exTele.nextSpan (buildAttrs (exState.heap 0).ctx).1 ∉
      otelTrace exEnv exHandler 0 exState exTele := by
  decide

/-- C5: the invocation starts as many producer spans, and as many goroutines, as the
handler produced messages, and records no publish latency on its own path.  In every
execution the publish latencies recorded, whatever their context, are as many as the
signals received, and each of them is the recording of the goroutine of a produced
message for which a signal fired.  For the produced message `m` of index `i`, with span
`t.nextSpan + 1 + i`, in every execution: the span is started once, as a child of the
context of `m`, and tagged with the publisher attributes; if a signal fires for `m`, the
span is ended exactly once and exactly one publish latency is recorded with the context
of that span, labelled with the publisher attributes, after the end of the span; if no
signal fires, the span is not ended and nothing is recorded. -/
theorem producer_spans_lifecycle {σ : Type} (env : Env) (h : HandlerFunc σ)
    (msg : MsgRef) (s : HState σ) (t : Tele) :
    (otelTrace env h msg s t).countP (isStart SpanKind.producer) =
      (OpenTelemetryMiddleware env h msg s t).1.1.length ∧
    (newWatchers t (OpenTelemetryMiddleware env h msg s t).2.2).length =
      (OpenTelemetryMiddleware env h msg s t).1.1.length ∧
    (otelTrace env h msg s t).countP (isRecord "watermill_kafka_publish_ms") = 0 ∧
    (∀ (outcome : Nat → Option Signal) (done : Nat → Time) (tr : List Event),
      OtelExec env h msg s t outcome done tr →
      tr.countP (isRecord "watermill_kafka_publish_ms") =
        signalled outcome 0 (OpenTelemetryMiddleware env h msg s t).1.1.length ∧
      ∀ e ∈ tr, isRecord "watermill_kafka_publish_ms" e = true →
        ∃ i m sg, (OpenTelemetryMiddleware env h msg s t).1.1[i]? = some m ∧
          outcome i = some sg ∧
          e = publishRecord (watcherOf env h msg s t i m) (done i)) ∧
    ∀ (i : Nat) (m : MsgRef), (OpenTelemetryMiddleware env h msg s t).1.1[i]? = some m →
      ∀ (outcome : Nat → Option Signal) (done : Nat → Time) (tr : List Event),
        OtelExec env h msg s t outcome done tr →
        tr.countP (isStart SpanKind.producer) =
          (OpenTelemetryMiddleware env h msg s t).1.1.length ∧
        (spanEvents (t.nextSpan + 1 + i) tr).take 2 =
          [Event.start (t.nextSpan + 1 + i)
             ((h msg (SetContext s msg (tracedCtx env msg s t))).2.heap m).ctx
             "publish messages" SpanKind.producer,
           Event.setAttributes (t.nextSpan + 1 + i) (buildAttrs (s.heap msg).ctx).2.2] ∧
        (spanEvents (t.nextSpan + 1 + i) tr).countP (isStart SpanKind.producer) = 1 ∧
        attrsSetOn (t.nextSpan + 1 + i) tr = [(buildAttrs (s.heap msg).ctx).2.2] ∧
        (watcherOf env h msg s t i m).pubAttr = (buildAttrs (s.heap msg).ctx).2.2 ∧
        (∀ sg, outcome i = some sg →
          tr.count (Event.spanEnd (t.nextSpan + 1 + i)) = 1 ∧
          recordsOf "watermill_kafka_publish_ms" (t.nextSpan + 1 + i) tr =
            [publishRecord (watcherOf env h msg s t i m) (done i)] ∧
          Precedes (Event.spanEnd (t.nextSpan + 1 + i))
            (publishRecord (watcherOf env h msg s t i m) (done i)) tr) ∧
        (outcome i = none →
          tr.count (Event.spanEnd (t.nextSpan + 1 + i)) = 0 ∧
          recordsOf "watermill_kafka_publish_ms" (t.nextSpan + 1 + i) tr = []) := by
  have hstart : (otelTrace env h msg s t).countP (isStart SpanKind.producer) =
      (OpenTelemetryMiddleware env h msg s t).1.1.length := by
    rw [otelTrace, otel_newEvents, otel_result]
    exact mainEvents_countP_start_producer env h msg s t
  refine ⟨hstart, ?_, ?_, ?_, ?_⟩
  · rw [otel_newWatchers, producerWatchers_length, otel_result]
    simp
  · rw [otelTrace, otel_newEvents]
    exact mainEvents_countP_publish env h msg s t
  · intro outcome done tr hex
    rw [otel_result]
    exact exec_publish_bound env h msg s t outcome done tr hex
  · intro i m hm outcome done tr hex
    rw [otel_result] at hm
    have hsp := exec_spanEvents_producer env h msg s t outcome done tr hex i m hm
    have hrec := exec_publish_records env h msg s t outcome done tr hex i m hm
    simp only [handlerRun] at hsp
    refine ⟨?_, ?_, ?_, ?_, rfl, ?_, ?_⟩
    · rw [exec_countP_main env h msg s t outcome done tr hex _
        (fun w sig now => run_no_start _ w sig now), hstart]
    · rw [hsp]
      rfl
    · rw [hsp]
      rcases outcome i with _ | sg
      · simp [completion, List.countP_cons, isStart]
      · cases sg <;> simp [completion, List.countP_cons, isStart]
    · rw [attrsSetOn, hsp]
      rcases outcome i with _ | sg
      · simp [completion, attrsOf]
      · cases sg <;> simp [completion, attrsOf]
    · intro sg hsg
      refine ⟨?_, ?_,
        exec_end_precedes_record env h msg s t outcome done tr hex i m hm sg hsg⟩
      · rw [count_spanEnd, hsp, hsg]
        cases sg <;> simp [completion, List.count_cons]
      · rw [hrec, hsg]
    · intro hnone
      refine ⟨?_, ?_⟩
      · rw [count_spanEnd, hsp, hnone]
        simp [completion, List.count_cons]
      · rw [hrec, hnone]

/-- Witness of C5: the example handler produces the messages 1 and 2; in the example
schedule message 1 (index 0, span 1) is rejected and message 2 acknowledged, two publish
latencies are recorded in all, span 1 is ended once and one publish latency is recorded
with its context, after the end of the span. -/
theorem producer_spans_lifecycle_witness :
    (OpenTelemetryMiddleware exEnv exHandler 0 exState exTele).1.1[0]? = some 1 ∧
    OtelExec exEnv exHandler 0 exState exTele exOutcome exDone exSchedule ∧
    exOutcome 0 = some Signal.nacked ∧
    (otelTrace exEnv exHandler 0 exState exTele).countP (isStart SpanKind.producer) = 2 ∧
    exSchedule.countP (isRecord "watermill_kafka_publish_ms") = 2 ∧
    exSchedule.count (Event.spanEnd 1) = 1 ∧
    recordsOf "watermill_kafka_publish_ms" 1 exSchedule =
      [publishRecord (watcherOf exEnv exHandler 0 exState exTele 0 1) (exDone 0)] ∧
    Precedes (Event.spanEnd 1)
      (publishRecord (watcherOf exEnv exHandler 0 exState exTele 0 1) (exDone 0))
      exSchedule :=
  ⟨rfl, exSchedule_exec, rfl,
   (producer_spans_lifecycle exEnv exHandler 0 exState exTele).1,
   ((producer_spans_lifecycle exEnv exHandler 0 exState exTele).2.2.2.1 exOutcome exDone
     exSchedule exSchedule_exec).1,
   (((producer_spans_lifecycle exEnv exHandler 0 exState exTele).2.2.2.2 0 1 rfl exOutcome
     exDone exSchedule exSchedule_exec).2.2.2.2.2.1 Signal.nacked rfl).1,
   (((producer_spans_lifecycle exEnv exHandler 0 exState exTele).2.2.2.2 0 1 rfl exOutcome
     exDone exSchedule exSchedule_exec).2.2.2.2.2.1 Signal.nacked rfl).2.1,
   (((producer_spans_lifecycle exEnv exHandler 0 exState exTele).2.2.2.2 0 1 rfl exOutcome
     exDone exSchedule exSchedule_exec).2.2.2.2.2.1 Signal.nacked rfl).2.2⟩

/-- C6 (amended): in every execution, when the rejected signal fires for the produced
message `m` of index `i`, its producer span is marked with error status, description
"nacked", the error "message nacked" is recorded on it, and it is then ended; when the
acknowledged signal fires, the span is ended with no status set and no error recorded.
The pair the middleware returns is the pair of the handler whatever the signals are. -/
theorem nack_marks_producer_span {σ : Type} (env : Env) (h : HandlerFunc σ)
    (msg : MsgRef) (s : HState σ) (t : Tele) (outcome : Nat → Option Signal)
    (done : Nat → Time) (tr : List Event) (i : Nat) (m : MsgRef)
    (hm : (OpenTelemetryMiddleware env h msg s t).1.1[i]? = some m)
    (hex : OtelExec env h msg s t outcome done tr) :
    (outcome i = some Signal.nacked →
      spanEvents (t.nextSpan + 1 + i) tr =
        [Event.start (t.nextSpan + 1 + i)
           ((h msg (SetContext s msg (tracedCtx env msg s t))).2.heap m).ctx
           "publish messages" SpanKind.producer,
         Event.setAttributes (t.nextSpan + 1 + i) (buildAttrs (s.heap msg).ctx).2.2,
         Event.setStatus (t.nextSpan + 1 + i) Code.error "nacked",
         Event.recordError (t.nextSpan + 1 + i) "message nacked",
         Event.spanEnd (t.nextSpan + 1 + i)] ∧
      statusSetOn (t.nextSpan + 1 + i) tr = [(Code.error, "nacked")] ∧
      errorsRecordedOn (t.nextSpan + 1 + i) tr = ["message nacked"]) ∧
    (outcome i = some Signal.acked →
      spanEvents (t.nextSpan + 1 + i) tr =
        [Event.start (t.nextSpan + 1 + i)
           ((h msg (SetContext s msg (tracedCtx env msg s t))).2.heap m).ctx
           "publish messages" SpanKind.producer,
         Event.setAttributes (t.nextSpan + 1 + i) (buildAttrs (s.heap msg).ctx).2.2,
         Event.spanEnd (t.nextSpan + 1 + i)] ∧
      statusSetOn (t.nextSpan + 1 + i) tr = [] ∧
      errorsRecordedOn (t.nextSpan + 1 + i) tr = []) ∧
    (OpenTelemetryMiddleware env h msg s t).1 =
      (h msg (SetContext s msg (tracedCtx env msg s t))).1 := by
  rw [otel_result] at hm
  have hsp := exec_spanEvents_producer env h msg s t outcome done tr hex i m hm
  simp only [handlerRun] at hsp
  refine ⟨?_, ?_, otel_result env h msg s t⟩
  · intro hsg
    rw [statusSetOn, errorsRecordedOn, hsp, hsg]
    simp [completion, statusOf, errorOf]
  · intro hsg
    rw [statusSetOn, errorsRecordedOn, hsp, hsg]
    simp [completion, statusOf, errorOf]

/-- Witness of C6: the example handler fails with "boom" and its first produced message
is rejected; in the example schedule span 1 carries the status and the recorded error,
and the returned pair is the one of the handler. -/
theorem nack_marks_producer_span_witness :
    (OpenTelemetryMiddleware exEnv exHandler 0 exState exTele).1.1[0]? = some 1 ∧
    OtelExec exEnv exHandler 0 exState exTele exOutcome exDone exSchedule ∧
    exOutcome 0 = some Signal.nacked ∧
    statusSetOn 1 exSchedule = [(Code.error, "nacked")] ∧
    errorsRecordedOn 1 exSchedule = ["message nacked"] ∧
    (OpenTelemetryMiddleware exEnv exHandler 0 exState exTele).1 = ([1, 2], some "boom") :=
  ⟨rfl, exSchedule_exec, rfl,
   ((nack_marks_producer_span exEnv exHandler 0 exState exTele exOutcome exDone exSchedule
     0 1 rfl exSchedule_exec).1 rfl).2.1,
   ((nack_marks_producer_span exEnv exHandler 0 exState exTele exOutcome exDone exSchedule
     0 1 rfl exSchedule_exec).1 rfl).2.2,
   (nack_marks_producer_span exEnv exHandler 0 exState exTele exOutcome exDone exSchedule
     0 1 rfl exSchedule_exec).2.2⟩

/-- Counterexample to C6 as stated: in the example schedule, where the first produced
message (index 0, span 1) is rejected, the only status set on its span has the
description "nacked"; no status with the description "message nacked" is ever set (that
text is the recorded error). -/
theorem nack_status_description :
    OtelExec exEnv exHandler 0 exState exTele exOutcome exDone exSchedule ∧
    (OpenTelemetryMiddleware exEnv exHandler 0 exState exTele).1.1[0]? = some 1 ∧
    exOutcome 0 = some Signal.nacked ∧
    statusSetOn 1 exSchedule = [(Code.error, "nacked")] ∧
    (Code.error, "message nacked") ∉ statusSetOn 1 exSchedule ∧
    Event.setStatus 1 Code.error "message nacked" ∉ exSchedule ∧
    errorsRecordedOn 1 exSchedule = ["message nacked"] :=
  ⟨exSchedule_exec, by decide, by decide, by decide, by decide, by decide, by decide⟩

/-- C7: in every execution the consumer span is marked with error status, and has the
error of the handler recorded on it, exactly when the handler returns an error; the
marking comes before the end of the span, which is the last call on it.  With an error
and no produced message no producer span is started and no goroutine; without an error
no status is set. -/
theorem consumer_span_error_status {σ : Type} (env : Env) (h : HandlerFunc σ)
    (msg : MsgRef) (s : HState σ) (t : Tele) (outcome : Nat → Option Signal)
    (done : Nat → Time) (tr : List Event)
    (hex : OtelExec env h msg s t outcome done tr) :
    (∀ err, (OpenTelemetryMiddleware env h msg s t).1.2 = some err →
      statusSetOn t.nextSpan tr = [(Code.error, "handler failed to process message")] ∧
      errorsRecordedOn t.nextSpan tr = [err] ∧
      Precedes (Event.setStatus t.nextSpan Code.error "handler failed to process message")
        (Event.spanEnd t.nextSpan) tr ∧
      Precedes (Event.recordError t.nextSpan err) (Event.spanEnd t.nextSpan) tr) ∧
    ((OpenTelemetryMiddleware env h msg s t).1.2 = none →
      statusSetOn t.nextSpan tr = [] ∧ errorsRecordedOn t.nextSpan tr = []) ∧
    ((∃ d, (Code.error, d) ∈ statusSetOn t.nextSpan tr) ↔
      (OpenTelemetryMiddleware env h msg s t).1.2 ≠ none) ∧
    (spanEvents t.nextSpan tr).getLast? = some (Event.spanEnd t.nextSpan) ∧
    tr.count (Event.spanEnd t.nextSpan) = 1 ∧
    ((OpenTelemetryMiddleware env h msg s t).1.1 = [] →
      tr.countP (isStart SpanKind.producer) = 0 ∧
      newWatchers t (OpenTelemetryMiddleware env h msg s t).2.2 = []) := by
  have hsp := exec_spanEvents_consumer env h msg s t outcome done tr hex
  have hsub : (spanEvents t.nextSpan tr).Sublist tr := List.filter_sublist _
  rw [otel_result]
  refine ⟨?_, ?_, ?_, ?_, ?_, ?_⟩
  · intro err herr
    rw [statusSetOn, errorsRecordedOn]
    rw [herr] at hsp
    refine ⟨by simp [hsp, errorEvents, statusOf], by simp [hsp, errorEvents, errorOf], ?_, ?_⟩
    · apply precedes_of_sublist _ _ _ _ _ hsub
      rw [hsp]
      exact ⟨[Event.start t.nextSpan (extractedCtx env msg s) "process message"
          SpanKind.consumer,
        Event.setAttributes t.nextSpan (buildAttrs (s.heap msg).ctx).2.1],
        [Event.recordError t.nextSpan err], [], by simp [errorEvents]⟩
    · apply precedes_of_sublist _ _ _ _ _ hsub
      rw [hsp]
      exact ⟨[Event.start t.nextSpan (extractedCtx env msg s) "process message"
          SpanKind.consumer,
        Event.setAttributes t.nextSpan (buildAttrs (s.heap msg).ctx).2.1,
        Event.setStatus t.nextSpan Code.error "handler failed to process message"],
        [], [], by simp [errorEvents]⟩
  · intro herr
    rw [statusSetOn, errorsRecordedOn, hsp, herr]
    simp [errorEvents, statusOf, errorOf]
  · rw [statusSetOn, hsp]
    cases (handlerRun env h msg s t).1.2 <;> simp [errorEvents, statusOf]
  · rw [hsp, List.getLast?_concat]
  · rw [count_spanEnd, hsp]
    cases (handlerRun env h msg s t).1.2 <;> simp [errorEvents, List.count_cons]
  · intro hnil
    refine ⟨?_, ?_⟩
    · rw [exec_countP_main env h msg s t outcome done tr hex _
        (fun w sig now => run_no_start _ w sig now), otelTrace, otel_newEvents,
        mainEvents_countP_start_producer, hnil]
      rfl
    · rw [otel_newWatchers, hnil]
      rfl

/-- Witness of C7: a handler that fails with "boom" and produces nothing; the consumer
span 0 carries the status and the error, and no producer span is started. -/
theorem consumer_span_error_status_witness :
    OtelExec exEnv exHandlerFail 0 exState exTele exOutcome exDone
      (otelTraceAll exEnv exHandlerFail 0 exState exTele exOutcome exDone) ∧
    (OpenTelemetryMiddleware exEnv exHandlerFail 0 exState exTele).1 = ([], some "boom") ∧
    statusSetOn 0 (otelTraceAll exEnv exHandlerFail 0 exState exTele exOutcome exDone) =
      [(Code.error, "handler failed to process message")] ∧
    errorsRecordedOn 0 (otelTraceAll exEnv exHandlerFail 0 exState exTele exOutcome exDone) =
      ["boom"] ∧
    (otelTraceAll exEnv exHandlerFail 0 exState exTele exOutcome exDone).countP
      (isStart SpanKind.producer) = 0 :=
  ⟨otel_exec_seq exEnv exHandlerFail 0 exState exTele exOutcome exDone, rfl,
   ((consumer_span_error_status exEnv exHandlerFail 0 exState exTele exOutcome exDone _
     (otel_exec_seq exEnv exHandlerFail 0 exState exTele exOutcome exDone)).1 "boom" rfl).1,
   ((consumer_span_error_status exEnv exHandlerFail 0 exState exTele exOutcome exDone _
     (otel_exec_seq exEnv exHandlerFail 0 exState exTele exOutcome exDone)).1 "boom"
     rfl).2.1,
   ((consumer_span_error_status exEnv exHandlerFail 0 exState exTele exOutcome exDone _
     (otel_exec_seq exEnv exHandlerFail 0 exState exTele exOutcome
       exDone)).2.2.2.2.2 rfl).1⟩

/-- C8: in the trace of one invocation, and in every execution with its goroutines,
exactly one consumer span is started and that span is ended exactly once; on the path of
the invocation it is the only span ended.  The start comes before the call of the wrapped
handler, and the end comes after the start of every producer span; on the path of the
invocation it is the last event. -/
theorem consumer_span_once {σ : Type} (env : Env) (h : HandlerFunc σ)
    (msg : MsgRef) (s : HState σ) (t : Tele) :
    (otelTrace env h msg s t).countP (isStart SpanKind.consumer) = 1 ∧
    (otelTrace env h msg s t).countP isEnd = 1 ∧
    (otelTrace env h msg s t).count (Event.spanEnd t.nextSpan) = 1 ∧
    (otelTrace env h msg s t).getLast? = some (Event.spanEnd t.nextSpan) ∧
    (∀ outcome done tr, OtelExec env h msg s t outcome done tr →
      tr.countP (isStart SpanKind.consumer) = 1 ∧
      tr.count (Event.spanEnd t.nextSpan) = 1 ∧
      Precedes
        (Event.start t.nextSpan (extractedCtx env msg s) "process message" SpanKind.consumer)
        (Event.call msg) tr ∧
      (∀ e ∈ tr, isStart SpanKind.producer e = true →
        Precedes e (Event.spanEnd t.nextSpan) tr)) := by
  have hstart : (otelTrace env h msg s t).countP (isStart SpanKind.consumer) = 1 := by
    rw [otelTrace, otel_newEvents]
    exact mainEvents_countP_start_consumer env h msg s t
  have hmain : ∀ e ∈ mainEvents env h msg s t, isStart SpanKind.producer e = true →
      Precedes e (Event.spanEnd t.nextSpan) (mainEvents env h msg s t) := by
    intro e he hst
    simp only [mainEvents] at he ⊢
    rcases List.mem_append.mp he with he1 | he1
    · obtain ⟨l1, l2, hl⟩ := List.append_of_mem he1
      exact ⟨l1, l2, [], by rw [hl]⟩
    · simp at he1
      subst he1
      simp [isStart] at hst
  refine ⟨hstart, ?_, ?_, ?_, ?_⟩
  · rw [otelTrace, otel_newEvents]
    exact mainEvents_countP_end env h msg s t
  · rw [otelTrace, count_spanEnd, otel_newEvents, mainEvents_spanEvents_consumer]
    cases (handlerRun env h msg s t).1.2 <;> simp [errorEvents, List.count_cons]
  · rw [otelTrace, otel_newEvents, mainEvents, List.getLast?_concat]
  · intro outcome done tr hex
    have hsub : (mainEvents env h msg s t).Sublist tr := by
      have := Exec.sublist_main hex
      rwa [otelTrace, otel_newEvents] at this
    refine ⟨?_, ?_, ?_, ?_⟩
    · rw [exec_countP_main env h msg s t outcome done tr hex _
        (fun w sig now => run_no_start _ w sig now), hstart]
    · rw [count_spanEnd, exec_spanEvents_consumer env h msg s t outcome done tr hex]
      cases (handlerRun env h msg s t).1.2 <;> simp [errorEvents, List.count_cons]
    · apply precedes_of_sublist _ _ _ _ _ hsub
      exact ⟨preEvents env (s.heap msg).ctx t.tick,
        [Event.setAttributes t.nextSpan (buildAttrs (s.heap msg).ctx).2.1],
        Event.recordBatch (tracedCtx env msg s t) (buildAttrs (s.heap msg).ctx).1
            "watermill_processing_ms"
            (Milliseconds (timeSub (env.clock (t.tick + preTicks (s.heap msg).ctx + 1))
              (env.clock (t.tick + preTicks (s.heap msg).ctx)))) ::
          (producerEvents (buildAttrs (s.heap msg).ctx).2.2 (t.nextSpan + 1)
            ((handlerRun env h msg s t).1.1.map fun m =>
              ((handlerRun env h msg s t).2.heap m).ctx) ++
          errorEvents t.nextSpan (handlerRun env h msg s t).1.2 ++
          [Event.spanEnd t.nextSpan]), by simp [mainEvents]⟩
    · intro e he hst
      have hmem := (Exec.mem_main_or hex e).mp he
      rcases hmem with hmem | hmem
      · rw [otelTrace, otel_newEvents] at hmem
        exact precedes_of_sublist _ _ _ _ (hmain e hmem hst) hsub
      · have hz := asyncEvents_countP_zero outcome done (isStart SpanKind.producer)
          (fun w sig now => run_no_start _ w sig now)
          (newWatchers t (OpenTelemetryMiddleware env h msg s t).2.2) 0
        rw [List.countP_eq_zero] at hz
        exact absurd hst (hz e hmem)

/-- Witness of C8: in the example schedule, one consumer span is started, span 0 is ended
once, and the start of the producer span of the second produced message comes before
that end. -/
theorem consumer_span_once_witness :
    OtelExec exEnv exHandler 0 exState exTele exOutcome exDone exSchedule ∧
    exSchedule.countP (isStart SpanKind.consumer) = 1 ∧
    exSchedule.count (Event.spanEnd 0) = 1 ∧
    Precedes (Event.start 2 exCtxBare "publish messages" SpanKind.producer)
      (Event.spanEnd 0) exSchedule :=
  ⟨exSchedule_exec,
   ((consumer_span_once exEnv exHandler 0 exState exTele).2.2.2.2 exOutcome exDone
     exSchedule exSchedule_exec).1,
   ((consumer_span_once exEnv exHandler 0 exState exTele).2.2.2.2 exOutcome exDone
     exSchedule exSchedule_exec).2.1,
   ((consumer_span_once exEnv exHandler 0 exState exTele).2.2.2.2 exOutcome exDone
     exSchedule exSchedule_exec).2.2.2
     (Event.start 2 exCtxBare "publish messages" SpanKind.producer) (by decide) rfl⟩

end Watermillext
